import Mathlib

set_option maxRecDepth 10000

/-!
Verification development for the media-ingestion pipeline
(`src/metadata.rs`, `src/filename.rs`, `src/processor.rs`).

Modelling conventions:
* A `chrono::DateTime<Utc>` is represented by its total number of milliseconds
  since the Unix epoch (an `Int`).  `DateTime::timestamp()` is floor division by
  1000 (`Int.fdiv`), `timestamp_subsec_millis()` is `Int.emod _ 1000`, and the
  chronological `Ord` on `DateTime` is the order on `Int`.
* `serde_json::Value` is the inductive `JVal`; a tag map (`HashMap<String, Value>`)
  is an association list queried through `mget` (hash maps have unique keys, so
  first-match lookup is faithful).
* `Utc::now()` and `serde_json::from_str` are external effects; they enter the
  embedding as explicit parameters `now : Int` (milliseconds) and
  `jp : String → Option JVal`.
* `eprintln!`/`println!` warnings have no effect on any value and are omitted.
-/

/-- Model of `serde_json::Value` (only the shapes the code inspects). -/
inductive JVal where
  | str (s : String)
  | arr (xs : List JVal)
  | obj (fields : List (String × JVal))
  | other

/-- A tag map, `HashMap<String, Value>`. -/
abbrev Metadata := List (String × JVal)

/-- `HashMap::get` on a tag map. -/
def mget (m : Metadata) (k : String) : Option JVal :=
  (m.find? (fun e => e.1 = k)).map (fun e => e.2)

/-- `Value::as_str`. -/
def JVal.asStr : JVal → Option String
  | .str s => some s
  | _ => none

/-- `Value::as_array`. -/
def JVal.asArr : JVal → Option (List JVal)
  | .arr xs => some xs
  | _ => none

/-- `Value::get` on a JSON object. -/
def JVal.getField (v : JVal) (k : String) : Option JVal :=
  match v with
  | .obj fs => (fs.find? (fun e => e.1 = k)).map (fun e => e.2)
  | _ => none

/-! ### Calendar arithmetic (the UTC date model behind `chrono`) -/

/-- Proleptic-Gregorian leap-year test. -/
def is_leap_year (y : Int) : Bool :=
  (y % 4 = 0 && y % 100 ≠ 0) || y % 400 = 0

/-- Number of days in month `m` of year `y` (0 for an invalid month). -/
def days_in_month (y : Int) (m : Nat) : Nat :=
  match m with
  | 1 => 31
  | 2 => if is_leap_year y then 29 else 28
  | 3 => 31
  | 4 => 30
  | 5 => 31
  | 6 => 30
  | 7 => 31
  | 8 => 31
  | 9 => 30
  | 10 => 31
  | 11 => 30
  | 12 => 31
  | _ => 0

/-- Days since 1970-01-01 of the civil date `y-m-d` (Gregorian, standard
era-based computation; all intermediate quotients are of non-negative values
except the era, which uses floor division). -/
def days_from_civil (y : Int) (m d : Nat) : Int :=
  let y1 : Int := if m ≤ 2 then y - 1 else y
  let era : Int := Int.fdiv y1 400
  let yoe : Int := y1 - era * 400
  let mp : Nat := (m + 9) % 12
  let doy : Int := (153 * (mp : Int) + 2) / 5 + (d : Int) - 1
  let doe : Int := yoe * 365 + yoe / 4 - yoe / 100 + doy
  era * 146097 + doe - 719468

/-- Inverse of `days_from_civil`: the civil date `(y, m, d)` of a day count. -/
def civil_from_days (z : Int) : Int × Nat × Nat :=
  let z1 := z + 719468
  let era := Int.fdiv z1 146097
  let doe := z1 - era * 146097
  let yoe := (doe - doe / 1460 + doe / 36524 - doe / 146096) / 365
  let doy := doe - (365 * yoe + yoe / 4 - yoe / 100)
  let mp := (5 * doy + 2) / 153
  let d := (doy - (153 * mp + 2) / 5 + 1).toNat
  let m := (if mp < 10 then mp + 3 else mp - 9).toNat
  (if m ≤ 2 then yoe + era * 400 + 1 else yoe + era * 400, m, d)

/-! ### Timestamp-string parsing (`parse_date_string` and its helpers) -/

/-- Value of an ASCII digit character. -/
def digitVal (ch : Char) : Option Nat :=
  if ch.isDigit then some (ch.toNat - 48) else none

/-- Read exactly two digits. -/
def read2 : List Char → Option (Nat × List Char)
  | a :: b :: rest =>
    match digitVal a, digitVal b with
    | some x, some y => some (10 * x + y, rest)
    | _, _ => none
  | _ => none

/-- Read exactly three digits. -/
def read3 : List Char → Option (Nat × List Char)
  | a :: b :: c :: rest =>
    match digitVal a, digitVal b, digitVal c with
    | some x, some y, some z => some (100 * x + 10 * y + z, rest)
    | _, _, _ => none
  | _ => none

/-- Read exactly four digits. -/
def read4 : List Char → Option (Nat × List Char)
  | a :: b :: c :: d :: rest =>
    match digitVal a, digitVal b, digitVal c, digitVal d with
    | some w, some x, some y, some z => some (1000 * w + 100 * x + 10 * y + z, rest)
    | _, _, _, _ => none
  | _ => none

/-- Consume one expected character. -/
def expectChar (c : Char) : List Char → Option (List Char)
  | x :: rest => if x = c then some rest else none
  | [] => none

/-- Parse the common `YYYY:MM:DD HH:MM:SS` core of the ExifTool date formats,
returning naive seconds-since-epoch and the unconsumed input.  Field validity
(real month, day, time-of-day) mirrors `chrono`'s date validation. -/
def parse_core (cs : List Char) : Option (Int × List Char) :=
  (read4 cs).bind fun yp =>
  (expectChar ':' yp.2).bind fun r1 =>
  (read2 r1).bind fun mop =>
  (expectChar ':' mop.2).bind fun r2 =>
  (read2 r2).bind fun dp =>
  (expectChar ' ' dp.2).bind fun r3 =>
  (read2 r3).bind fun hp =>
  (expectChar ':' hp.2).bind fun r4 =>
  (read2 r4).bind fun mip =>
  (expectChar ':' mip.2).bind fun r5 =>
  (read2 r5).bind fun sp =>
  let y : Int := (yp.1 : Int)
  let mo := mop.1
  let d := dp.1
  if 1 ≤ mo ∧ mo ≤ 12 ∧ 1 ≤ d ∧ d ≤ days_in_month y mo ∧ hp.1 ≤ 23 ∧ mip.1 ≤ 59 ∧ sp.1 ≤ 59 then
    some (days_from_civil y mo d * 86400 + (hp.1 : Int) * 3600 + (mip.1 : Int) * 60 + (sp.1 : Int),
          sp.2)
  else
    none

/-- Parse a `chrono` `%z` zone offset: `+HH:MM`, `-HH:MM`, `+HHMM` or `-HHMM`.
Returns the offset in seconds and the unconsumed input. -/
def parse_zone (cs : List Char) : Option (Int × List Char) :=
  match cs with
  | c :: rest =>
    if c = '+' ∨ c = '-' then
      (read2 rest).bind fun hhp =>
        match expectChar ':' hhp.2 with
        | some r2 =>
          (read2 r2).bind fun mmp =>
            some ((if c = '-' then -(1 : Int) else 1) * ((hhp.1 : Int) * 3600 + (mmp.1 : Int) * 60),
                  mmp.2)
        | none =>
          (read2 hhp.2).bind fun mmp =>
            some ((if c = '-' then -(1 : Int) else 1) * ((hhp.1 : Int) * 3600 + (mmp.1 : Int) * 60),
                  mmp.2)
    else none
  | [] => none

/-- Parse a `chrono` `%.3f` fraction: a dot followed by exactly three digits. -/
def parse_millis (cs : List Char) : Option (Nat × List Char) :=
  match expectChar '.' cs with
  | some r1 => read3 r1
  | none => none

/-- Embedding of `apply_timezone`: interpret naive seconds using the extracted
zone offset if present, else as UTC. -/
def apply_timezone (naive_sec : Int) (offset_seconds : Option Int) : Int :=
  match offset_seconds with
  | some off => naive_sec - off
  | none => naive_sec

/-- Embedding of `parse_date_string`: the four `chrono` formats are tried in
the source's order (`%Y:%m:%d %H:%M:%S%z`, then with `%.3f%z`, then the two
zone-less variants interpreted through `apply_timezone`).  The result is the
UTC instant in milliseconds. -/
def parse_date_string (s : String) (timezone_offset : Option Int) : Option Int :=
  let cs := s.toList
  let fmt1 : Option Int :=
    (parse_core cs).bind fun tp =>
      (parse_zone tp.2).bind fun op =>
        if op.2 = [] then some ((tp.1 - op.1) * 1000) else none
  let fmt2 : Option Int :=
    (parse_core cs).bind fun tp =>
      (parse_millis tp.2).bind fun msp =>
        (parse_zone msp.2).bind fun op =>
          if op.2 = [] then some ((tp.1 - op.1) * 1000 + (msp.1 : Int)) else none
  let fmt3 : Option Int :=
    (parse_core cs).bind fun tp =>
      if tp.2 = [] then some (apply_timezone tp.1 timezone_offset * 1000) else none
  let fmt4 : Option Int :=
    (parse_core cs).bind fun tp =>
      (parse_millis tp.2).bind fun msp =>
        if msp.2 = [] then some (apply_timezone tp.1 timezone_offset * 1000 + (msp.1 : Int))
        else none
  fmt1 <|> fmt2 <|> fmt3 <|> fmt4

/-! ### Timezone-offset tags -/

/-- Embedding of `parse_timezone_offset`: the string must be exactly six
characters; the sign is `+1` exactly when the first character is `'+'` (any
other first character gives `-1`, as in the source); characters 1-2 and 4-5
are parsed as `i32`s (which tolerates a sign character of its own); the
character at index 3 is never inspected. -/
def parse_i32_pair (a b : Char) : Option Int :=
  match digitVal a, digitVal b with
  | some x, some y => some ((10 * x + y : Nat) : Int)
  | _, _ =>
    if a = '-' then (digitVal b).map (fun y => -(y : Int))
    else if a = '+' then (digitVal b).map (fun y => (y : Int))
    else none

/-- Embedding of `parse_timezone_offset` (see `parse_i32_pair`). -/
def parse_timezone_offset (s : String) : Option Int :=
  match s.toList with
  | [c0, c1, c2, _c3, c4, c5] =>
    let sign : Int := if c0 = '+' then 1 else -1
    (parse_i32_pair c1 c2).bind fun hours =>
      (parse_i32_pair c4 c5).bind fun minutes =>
        some (sign * (hours * 3600 + minutes * 60))
  | _ => none

/-- Embedding of `extract_timezone_offset`: the first offset tag whose value is
a JSON string is parsed; if that parse fails the function returns `none`
without consulting later tags (the source `return`s the parse result). -/
def extract_timezone_offset (m : Metadata) : Option Int :=
  (["OffsetTime", "OffsetTimeOriginal", "OffsetTimeDigitized"].findSome? fun tag =>
    ([tag, "EXIF:" ++ tag].findSome? fun key =>
      match mget m key with
      | some (JVal.str s) => some s
      | _ => none)).bind parse_timezone_offset

/-! ### Multi-valued dates: statistical mode with earliest tie-break -/

/-- `DateTime::timestamp()`: seconds since epoch, floor of the millisecond value. -/
def timestamp (dms : Int) : Int :=
  Int.fdiv dms 1000

/-- Number of elements of `ds` whose second-precision timestamp is `k`
(the multiplicity recorded in the `counts` hash map of the source). -/
def count_of (ds : List Int) (k : Int) : Nat :=
  ds.countP (fun d => timestamp d = k)

/-- The `counts.values().max().copied().unwrap_or(0)` of the source: the
largest multiplicity among the second-precision classes of `ds`. -/
def max_count (ds : List Int) : Nat :=
  (ds.map (fun d => count_of ds (timestamp d))).foldr max 0

/-- Embedding of `find_mode_or_earliest`: keep the dates belonging to a class
of maximal multiplicity, and take the minimum (chronologically earliest).
The source `unwrap`s the minimum; the `none` case corresponds to the empty
input on which the source would panic (its only caller guards against it). -/
def find_mode_or_earliest (ds : List Int) : Option Int :=
  (ds.filter (fun d => count_of ds (timestamp d) = max_count ds)).min?

/-- Embedding of `parse_date_array`: parse every string element, dropping
non-strings and unparseable strings. -/
def parse_date_array (arr : List JVal) (timezone_offset : Option Int) : List Int :=
  arr.filterMap (fun v => v.asStr.bind (fun s => parse_date_string s timezone_offset))

/-! ### The priority-ordered resolver -/

/-- Order of preference for creation date extraction (`CREATION_DATE_TAGS`). -/
def CREATION_DATE_TAGS : List String :=
  ["DateTimeOriginal", "MediaCreateDate", "CreateDate", "TrackCreateDate", "CreationDate",
   "ModifyDate", "MediaModifyDate", "UserComment", "TrackModifyDate", "FileModifyDate"]

/-- Order of preference for modification date extraction (`MODIFY_DATE_TAGS`). -/
def MODIFY_DATE_TAGS : List String :=
  ["ModifyDate", "UserComment", "MediaModifyDate", "TrackModifyDate", "CreateDate",
   "DateTimeOriginal", "TrackCreateDate", "MediaCreateDate", "CreationDate", "FileModifyDate"]

/-- The `REJECTED_EPOCHS` constant, exactly as in the source.  Note the values:
`-2209075200` is 1899-12-31T00:00:00Z (the comment in the source says
1900-01-01) and `315532800` is 1980-01-01T00:00:00Z (the comment says
1980-01-06, the GPS epoch). -/
def REJECTED_EPOCHS : List Int :=
  [0, -2209075200, -2082844800, 315532800, 978307200]

/-- Embedding of `is_valid_date` with the wall clock `now` (milliseconds) as a
parameter: reject dates after `now`, dates whose second-precision timestamp is
strictly within 86400 seconds of a rejected epoch, and timestamp zero. -/
def is_valid_date (now : Int) (date : Int) : Bool :=
  if date > now then false
  else if REJECTED_EPOCHS.any (fun epoch => (timestamp date - epoch).natAbs < 86400) then false
  else if timestamp date = 0 then false
  else true

/-- Embedding of `extract_date_from_user_comment`: for the two keys, the value
must be a string holding a JSON document (parsed by the oracle `jp`) with a
string field `orgFileModifiedDate` that parses as a date (with no zone offset
applied); any failure falls through to the next key. -/
def extract_date_from_user_comment (jp : String → Option JVal) (m : Metadata) : Option Int :=
  ["UserComment", "EXIF:UserComment"].findSome? fun key =>
    ((((mget m key).bind JVal.asStr).bind jp).bind fun j =>
      (j.getField "orgFileModifiedDate").bind JVal.asStr).bind fun ds =>
        parse_date_string ds none

/-- Embedding of `find_and_parse_date`: try the six group-prefixed variants in
order; an array value is parsed element-wise and reduced by
`find_mode_or_earliest` (an array parsing to no dates falls through to the
next variant); a string value is parsed directly (a failed parse falls through
to the next variant). -/
def find_and_parse_date (m : Metadata) (tag_name : String) (timezone_offset : Option Int) :
    Option Int :=
  [tag_name, "EXIF:" ++ tag_name, "QuickTime:" ++ tag_name, "XMP:" ++ tag_name,
   "Composite:" ++ tag_name, "File:" ++ tag_name].findSome? fun key =>
    (mget m key).bind fun v =>
      match v.asArr with
      | some arr =>
        let dates := parse_date_array arr timezone_offset
        if dates.isEmpty then none else find_mode_or_earliest dates
      | none => v.asStr.bind fun s => parse_date_string s timezone_offset

/-- The candidate a single priority tag contributes in `extract_date_by_priority`:
the special `UserComment` handling for that tag, `find_and_parse_date` for
every other tag. -/
def date_candidate (jp : String → Option JVal) (m : Metadata) (timezone_offset : Option Int)
    (tag_name : String) : Option Int :=
  if tag_name = "UserComment" then extract_date_from_user_comment jp m
  else find_and_parse_date m tag_name timezone_offset

/-- The loop of `extract_date_by_priority`: first candidate passing
`is_valid_date` wins; a tag whose candidate fails the filter (or produces no
candidate) is skipped. -/
def extract_date_by_priority_go (now : Int) (jp : String → Option JVal) (m : Metadata)
    (timezone_offset : Option Int) : List String → Option Int
  | [] => none
  | t :: ts =>
    match date_candidate jp m timezone_offset t with
    | some d =>
      if is_valid_date now d then some d
      else extract_date_by_priority_go now jp m timezone_offset ts
    | none => extract_date_by_priority_go now jp m timezone_offset ts

/-- Embedding of `extract_date_by_priority`: the zone offset is computed once
from the tag map, then the priority list is scanned. -/
def extract_date_by_priority (now : Int) (jp : String → Option JVal) (m : Metadata)
    (priority_list : List String) : Option Int :=
  extract_date_by_priority_go now jp m (extract_timezone_offset m) priority_list

/-- Embedding of `extract_creation_date`. -/
def extract_creation_date (now : Int) (jp : String → Option JVal) (m : Metadata) : Option Int :=
  extract_date_by_priority now jp m CREATION_DATE_TAGS

/-- Embedding of `extract_modify_date`. -/
def extract_modify_date (now : Int) (jp : String → Option JVal) (m : Metadata) : Option Int :=
  extract_date_by_priority now jp m MODIFY_DATE_TAGS

/-- The `MediaDates` pair (both fields are UTC instants in milliseconds). -/
structure MediaDates where
  creation_date : Int
  modify_date : Int
deriving DecidableEq

/-- Embedding of `extract_dates_from_metadata` (the per-file warning for
pre-2010 dates is an `eprintln!` with no effect on the value). -/
def extract_dates_from_metadata (now : Int) (jp : String → Option JVal) (m : Metadata) :
    Except String MediaDates :=
  match extract_creation_date now jp m with
  | none => .error "No valid creation date found"
  | some creation =>
    match extract_modify_date now jp m with
    | none => .error "No valid modification date found"
    | some modify => .ok ⟨creation, modify⟩

/-! ### Filename generation (`filename.rs`) -/

/-- Zero-pad a natural number to width 2. -/
def pad2 (n : Nat) : String :=
  if n < 10 then "0" ++ toString n else toString n

/-- Zero-pad a natural number to width 3. -/
def pad3 (n : Nat) : String :=
  if n < 10 then "00" ++ toString n
  else if n < 100 then "0" ++ toString n
  else toString n

/-- Rust `format!("{:04}", y)` on an `i32` year. -/
def pad4_int (y : Int) : String :=
  if y < 0 then "-" ++ pad3 (-y).toNat
  else if y < 10 then "000" ++ toString y.toNat
  else if y < 100 then "00" ++ toString y.toNat
  else if y < 1000 then "0" ++ toString y.toNat
  else toString y.toNat

/-- Embedding of `format_date`: render a UTC instant (milliseconds) as
`YYYY-MM-DD_HH.mm.SS.NNN`. -/
def format_date (dms : Int) : String :=
  let secs := Int.fdiv dms 1000
  let ms := (Int.emod dms 1000).toNat
  let days := Int.fdiv secs 86400
  let sod := (Int.emod secs 86400).toNat
  let c := civil_from_days days
  pad4_int c.1 ++ "-" ++ pad2 c.2.1 ++ "-" ++ pad2 c.2.2 ++ "_" ++
    pad2 (sod / 3600) ++ "." ++ pad2 (sod % 3600 / 60) ++ "." ++ pad2 (sod % 60) ++ "." ++ pad3 ms

/-- Embedding of `normalize_extension`: uppercase (character-wise, which
agrees with Rust's `to_uppercase` on ASCII extensions), with `JPEG → JPG`. -/
def normalize_extension (ext : String) : String :=
  let upper := String.mk (ext.data.map Char.toUpper)
  if upper = "JPEG" then "JPG" else upper

/-- Embedding of `generate_filename`. -/
def generate_filename (dates : MediaDates) (original_extension : String) (counter : Nat) :
    String :=
  format_date dates.creation_date ++ " " ++ format_date dates.modify_date ++ " " ++
    toString counter ++ "." ++ normalize_extension original_extension

/-! ### Batch extraction with failure bisection (`metadata.rs`)

`HashMap<PathBuf, _>` result maps are modelled as association lists with
unique keys; `insert` removes any previous binding and appends, `extend`
folds `insert` over the other map's entries (overwriting, as `HashMap::extend`
does).  Iteration order of a hash map is irrelevant to every use site
(per-entry transformation and key lookup), so the list order is immaterial. -/

/-- One per-path outcome: resolved dates or a typed failure. -/
abbrev Outcome := Except String MediaDates

/-- A `HashMap` from paths to values, as an association list with unique keys. -/
abbrev HMap (α : Type) := List (String × α)

/-- `HashMap::insert` (overwrites any existing binding). -/
def hmInsert {α : Type} (m : HMap α) (k : String) (v : α) : HMap α :=
  m.filter (fun e => e.1 ≠ k) ++ [(k, v)]

/-- `HashMap::extend` (entries of `other` overwrite entries of `m`). -/
def hmExtend {α : Type} (m other : HMap α) : HMap α :=
  other.foldl (fun acc e => hmInsert acc e.1 e.2) m

/-- `HashMap::get`. -/
def hmLookup {α : Type} (m : HMap α) (k : String) : Option α :=
  (m.find? (fun e => e.1 = k)).map (fun e => e.2)

/-- The key set of a map. -/
def hmKeys {α : Type} (m : HMap α) : List String :=
  m.map (fun e => e.1)

/-- The external metadata engine (`ExifTool::json_batch`): paths and the
`-ee` flag in, either a batch-level error or a list of per-path JSON records.
The handle's hidden process state does not influence the modelled protocol, so
the engine is a function. -/
abbrev Engine := List String → Bool → Except String (List JVal)

/-- `serde_json::from_value::<HashMap<String, Value>>`: succeeds exactly on
JSON objects. -/
def metadata_of_value (v : JVal) : Except String Metadata :=
  match v with
  | .obj fields => .ok fields
  | _ => .error "Failed to parse metadata: invalid type"

/-- The record-collection loop of `extract_batch_with_exiftool`: record `i`
is attributed to path `i`; records beyond the path list are discarded
(`break`), and paths beyond the record list receive no entry at all. -/
def collect_records (file_paths : List String) (records : List JVal) :
    HMap (Except String Metadata) :=
  (file_paths.zip records).foldl (fun acc e => hmInsert acc e.1 (metadata_of_value e.2)) []

/-- Embedding of `extract_batch_with_exiftool`: a batch-level engine error is
bubbled up wrapped in its `anyhow` context (whose `Display` is the context
message). -/
def extract_batch_with_exiftool (E : Engine) (file_paths : List String)
    (extract_embedded : Bool) : Except String (HMap (Except String Metadata)) :=
  match E file_paths extract_embedded with
  | .error _ => .error "Exiftool batch execution failed"
  | .ok records => .ok (collect_records file_paths records)

/-- Embedding of `try_extract_batch`: always requests `-ee`, then runs every
per-path record through the Date Resolver. -/
def try_extract_batch (now : Int) (jp : String → Option JVal) (E : Engine)
    (file_paths : List String) : Except String (HMap Outcome) :=
  match extract_batch_with_exiftool E file_paths true with
  | .error e => .error e
  | .ok mm =>
    .ok (mm.foldl
      (fun acc e =>
        hmInsert acc e.1 (e.2.bind (fun md => extract_dates_from_metadata now jp md))) [])

/-- Embedding of `extract_dates_batch_adaptive`: try the whole batch; on a
batch-level failure with a single path, record a terminal per-file failure;
with more paths, bisect into the two contiguous halves and merge the
recursive results. -/
def extract_dates_batch_adaptive (now : Int) (jp : String → Option JVal) (E : Engine)
    (file_paths : List String) : HMap Outcome :=
  if _h0 : file_paths = [] then []
  else
    match try_extract_batch now jp E file_paths with
    | .ok batch_results => hmExtend [] batch_results
    | .error e =>
      if _h1 : file_paths.length = 1 then
        hmInsert [] (file_paths.headD "") (.error ("Failed to extract metadata: " ++ e))
      else
        hmExtend
          (hmExtend [] (extract_dates_batch_adaptive now jp E
            (file_paths.take (file_paths.length / 2))))
          (extract_dates_batch_adaptive now jp E
            (file_paths.drop (file_paths.length / 2)))
termination_by file_paths.length
decreasing_by
  · simp only [List.length_take, List.length_drop]
    have hne : file_paths.length ≠ 0 := by
      simpa [List.length_eq_zero] using _h0
    omega
  · simp only [List.length_take, List.length_drop]
    have hne : file_paths.length ≠ 0 := by
      simpa [List.length_eq_zero] using _h0
    omega

/-- Embedding of `extract_dates_batch` (the public wrapper). -/
def extract_dates_batch (now : Int) (jp : String → Option JVal) (E : Engine)
    (file_paths : List String) : HMap Outcome :=
  extract_dates_batch_adaptive now jp E file_paths

/-! ### The placement protocol (`processor.rs`)

The output directory is modelled per date-pair-and-extension name family: a
map from counter to slot (`generate_filename` is injective in the counter for
fixed dates and extension, so candidate paths are identified by their
counter).  A slot is absent, present-but-unreadable (an `fs::read` error), or
present with content.  Source files live in a separate path-indexed map;
`fs::read` of a source fails exactly when the map has no entry.  I/O fault
injection for the transfer step is an explicit environment. -/

/-- State of one candidate target path in the output directory. -/
inductive Slot where
  | free
  | unreadable
  | filled (content : List Nat)
deriving DecidableEq

/-- The `ProcessingStats` aggregate. -/
structure ProcessingStats where
  total_files : Nat := 0
  moved : Nat := 0
  copied : Nat := 0
  skipped : Nat := 0
  failed : Nat := 0
  duplicates : List (String × String) := []
deriving DecidableEq

/-- Mutable world visible to the result consumer: statistics, the output
directory's slots for the current name family, and the source files. -/
structure PState where
  stats : ProcessingStats
  out : Nat → Slot
  sources : String → Option (List Nat)

/-- I/O fault injection for the transfer step. -/
structure IOEnv where
  renameFails : Bool := false
  copyFails : Bool := false
  removeFails : Bool := false

/-- Outcome of the duplicate-checking loop of `handle_worker_result`. -/
inductive WalkOutcome where
  | place (c : Nat)
  | dup (c : Nat)
  | fail
deriving DecidableEq

/-- The collision-walk loop of `handle_worker_result`, started at counter 1 by
its caller: a free slot is the placement target; identical content is a
duplicate; different content — or an unreadable existing file, which only
warns — advances the counter; advancing past 10000 gives up. -/
def walkFrom (slots : Nat → Slot) (content : List Nat) (c : Nat) : WalkOutcome :=
  match slots c with
  | .free => .place c
  | .filled existing =>
    if existing = content then .dup c
    else if _h : c + 1 > 10000 then .fail
    else walkFrom slots content (c + 1)
  | .unreadable =>
    if _h : c + 1 > 10000 then .fail
    else walkFrom slots content (c + 1)
termination_by 10001 - c
decreasing_by
  · omega
  · omega

/-- The `ProcessResult` of `transfer_file`, with `Err` carrying its message. -/
inductive TransferResult where
  | moved
  | copied
  | skippedDup (dest : String)
  | ioError (msg : String)
deriving DecidableEq

/-- Result triple of the transfer step: process result plus the updated
output slots and source map. -/
structure TransferOut where
  res : TransferResult
  out : Nat → Slot
  sources : String → Option (List Nat)

/-- Point update of the output slots. -/
def updateSlot (out : Nat → Slot) (c : Nat) (s : Slot) : Nat → Slot :=
  fun i => if i = c then s else out i

/-- The write phase of `transfer_file`: atomic rename on the same volume,
copy-then-delete-source across volumes.  A failed rename changes nothing; a
failed copy changes nothing; a failed source deletion after a successful copy
leaves the copied destination in place and the source present. -/
def transfer_write (env : IOEnv) (out : Nat → Slot) (sources : String → Option (List Nat))
    (file_path : String) (counter : Nat) (should_move : Bool) (content : List Nat) :
    TransferOut :=
  if should_move then
    if env.renameFails then ⟨.ioError "Failed to move file", out, sources⟩
    else ⟨.moved, updateSlot out counter (.filled content),
          fun p => if p = file_path then none else sources p⟩
  else
    if env.copyFails then ⟨.ioError "Failed to copy file", out, sources⟩
    else
      let out2 := updateSlot out counter (.filled content)
      if env.removeFails then
        ⟨.ioError "Failed to delete source file after copy", out2, sources⟩
      else ⟨.copied, out2, fun p => if p = file_path then none else sources p⟩

/-- Embedding of `transfer_file`: the defensive re-check of the target (an
existing identical file is reported as `Skipped`; reading an existing target
can fail and aborts with an error) followed by the write phase. -/
def transfer_file (env : IOEnv) (out : Nat → Slot) (sources : String → Option (List Nat))
    (file_path : String) (dates : MediaDates) (extension : String) (counter : Nat)
    (should_move : Bool) (content : List Nat) : TransferOut :=
  match out counter with
  | .filled existing =>
    if existing = content then
      ⟨.skippedDup (generate_filename dates extension counter), out, sources⟩
    else transfer_write env out sources file_path counter should_move content
  | .unreadable => ⟨.ioError "Failed to read existing file", out, sources⟩
  | .free => transfer_write env out sources file_path counter should_move content

/-- The `ProcessedFile` payload of a successful worker result. -/
structure ProcessedFile where
  dates : MediaDates
  extension : String
  should_move : Bool

/-- Embedding of `handle_worker_result`, the single result consumer: a failed
extraction or an unreadable source counts as `failed`; otherwise the collision
walk from counter 1 either finds a duplicate (recorded and skipped), exhausts
the 10000-attempt ceiling (`failed`), or yields the placement counter, after
which the transfer's outcome selects the statistic.  `handle_failed_file`
writes only failure artifacts outside the modelled state. -/
def handle_worker_result (env : IOEnv) (st : PState) (original_path : String)
    (result : Except String ProcessedFile) : PState :=
  match result with
  | .error _ => { st with stats := { st.stats with failed := st.stats.failed + 1 } }
  | .ok pf =>
    match st.sources original_path with
    | none => { st with stats := { st.stats with failed := st.stats.failed + 1 } }
    | some content =>
      match walkFrom st.out content 1 with
      | .dup c =>
        { st with stats := { st.stats with
            skipped := st.stats.skipped + 1,
            duplicates := st.stats.duplicates ++
              [(original_path, generate_filename pf.dates pf.extension c)] } }
      | .fail => { st with stats := { st.stats with failed := st.stats.failed + 1 } }
      | .place c =>
        let t := transfer_file env st.out st.sources original_path pf.dates pf.extension c
          pf.should_move content
        match t.res with
        | .moved =>
          { stats := { st.stats with moved := st.stats.moved + 1 },
            out := t.out, sources := t.sources }
        | .copied =>
          { stats := { st.stats with copied := st.stats.copied + 1 },
            out := t.out, sources := t.sources }
        | .skippedDup dest =>
          { stats := { st.stats with
              skipped := st.stats.skipped + 1,
              duplicates := st.stats.duplicates ++ [(original_path, dest)] },
            out := t.out, sources := t.sources }
        | .ioError _ =>
          { stats := { st.stats with failed := st.stats.failed + 1 },
            out := t.out, sources := t.sources }

/-! ### Claim-side definitions, following the spec's words -/

/-- Modelled from the spec: the placeholder-epoch list as the spec names it —
Unix epoch, 1900-01-01, 1904-01-01, the GPS epoch 1980-01-06, 2001-01-01. -/
def rejected_epochs_spec : List Int :=
  [0, -2208988800, -2082844800, 315964800, 978307200]

/-- Modelled from the spec: the plausibility filter as claimed — reject if and
only if strictly later than now or within 24 hours of a placeholder epoch. -/
def is_valid_date_spec (now : Int) (date : Int) : Bool :=
  if date > now then false
  else if rejected_epochs_spec.any (fun epoch => (timestamp date - epoch).natAbs < 86400) then
    false
  else true

/-- Modelled from the spec (claim C6's reading): for each tag, every
group-prefixed variant is checked for a passing candidate before moving to the
next tag; the first passing candidate wins. -/
def extract_date_by_priority_spec (now : Int) (jp : String → Option JVal) (m : Metadata)
    (priority_list : List String) : Option Int :=
  let tz := extract_timezone_offset m
  priority_list.findSome? fun t =>
    if t = "UserComment" then
      (extract_date_from_user_comment jp m).bind fun d =>
        if is_valid_date now d then some d else none
    else
      [t, "EXIF:" ++ t, "QuickTime:" ++ t, "XMP:" ++ t, "Composite:" ++ t,
       "File:" ++ t].findSome? fun key =>
        ((mget m key).bind fun v =>
          match v.asArr with
          | some arr =>
            let dates := parse_date_array arr tz
            if dates.isEmpty then none else find_mode_or_earliest dates
          | none => v.asStr.bind fun s => parse_date_string s tz).bind fun d =>
          if is_valid_date now d then some d else none

/-- The mode-selection property claimed for multi-valued date arrays: the
selected date exists, belongs to a second-precision class of maximal
multiplicity, is the chronologically earliest among all dates of maximal
classes, and lies in the strictly most frequent class whenever one exists. -/
def mode_selection_spec (ds : List Int) : Prop :=
  ∃ r, find_mode_or_earliest ds = some r ∧ r ∈ ds ∧
    count_of ds (timestamp r) = max_count ds ∧
    (∀ d ∈ ds, count_of ds (timestamp d) = max_count ds → r ≤ d) ∧
    (∀ v ∈ ds, (∀ d ∈ ds, timestamp d ≠ timestamp v →
        count_of ds (timestamp d) < count_of ds (timestamp v)) →
      timestamp r = timestamp v)

/-- One handled worker result moves exactly one statistic: exactly one of
`moved`, `copied`, `skipped`, `failed` grows by one, the others are unchanged,
and the duplicates list gains exactly one pair precisely in the `skipped`
case. -/
def one_outcome_step (s s2 : ProcessingStats) : Prop :=
  (s2.moved = s.moved + 1 ∧ s2.copied = s.copied ∧ s2.skipped = s.skipped ∧
    s2.failed = s.failed ∧ s2.duplicates = s.duplicates)
  ∨ (s2.copied = s.copied + 1 ∧ s2.moved = s.moved ∧ s2.skipped = s.skipped ∧
    s2.failed = s.failed ∧ s2.duplicates = s.duplicates)
  ∨ (s2.skipped = s.skipped + 1 ∧ s2.moved = s.moved ∧ s2.copied = s.copied ∧
    s2.failed = s.failed ∧ ∃ pr, s2.duplicates = s.duplicates ++ [pr])
  ∨ (s2.failed = s.failed + 1 ∧ s2.moved = s.moved ∧ s2.copied = s.copied ∧
    s2.skipped = s.skipped ∧ s2.duplicates = s.duplicates)

/-- The idempotent-placement property of claim C7: after placing the same new
content twice (two distinct source paths), there is exactly one slot holding
that content, nothing else in the output directory was touched, the second
placement is recorded as a duplicate of the first placement's destination, and
the second source file is not deleted. -/
def idempotent_placement_spec (env : IOEnv) (st : PState) (p1 p2 : String)
    (pf : ProcessedFile) (content : List Nat) : Prop :=
  ∃ c, 1 ≤ c ∧ c ≤ 10000 ∧
    (handle_worker_result env st p1 (.ok pf)).out c = .filled content ∧
    (∀ i, i ≠ c → (handle_worker_result env st p1 (.ok pf)).out i = st.out i) ∧
    (handle_worker_result env (handle_worker_result env st p1 (.ok pf)) p2 (.ok pf)).out
      = (handle_worker_result env st p1 (.ok pf)).out ∧
    (∀ i, (handle_worker_result env (handle_worker_result env st p1 (.ok pf)) p2 (.ok pf)).out i
        = .filled content ↔ i = c) ∧
    (handle_worker_result env (handle_worker_result env st p1 (.ok pf)) p2 (.ok pf)).stats.skipped
      = (handle_worker_result env st p1 (.ok pf)).stats.skipped + 1 ∧
    (handle_worker_result env (handle_worker_result env st p1 (.ok pf)) p2 (.ok pf)).stats.duplicates
      = (handle_worker_result env st p1 (.ok pf)).stats.duplicates ++
          [(p2, generate_filename pf.dates pf.extension c)] ∧
    (handle_worker_result env (handle_worker_result env st p1 (.ok pf)) p2 (.ok pf)).sources p2
      = some content

/-! ## Helper lemmas -/

/-- Step lemma for the priority loop: a tag with no candidate is skipped. -/
theorem edbp_go_skip (now : Int) (jp : String → Option JVal) (m : Metadata)
    (tz : Option Int) (t : String) (ts : List String)
    (h : date_candidate jp m tz t = none) :
    extract_date_by_priority_go now jp m tz (t :: ts) =
      extract_date_by_priority_go now jp m tz ts := by
  conv_lhs => unfold extract_date_by_priority_go
  rw [h]

/-- Step lemma for the priority loop: a valid candidate wins. -/
theorem edbp_go_hit (now : Int) (jp : String → Option JVal) (m : Metadata)
    (tz : Option Int) (t : String) (ts : List String) (d : Int)
    (h : date_candidate jp m tz t = some d) (hv : is_valid_date now d = true) :
    extract_date_by_priority_go now jp m tz (t :: ts) = some d := by
  conv_lhs => unfold extract_date_by_priority_go
  rw [h]
  simp [hv]

/-- The priority loop returns the first candidate (in tag order) passing the
plausibility filter. -/
theorem edbp_go_eq_find (now : Int) (jp : String → Option JVal) (m : Metadata)
    (tz : Option Int) (l : List String) :
    extract_date_by_priority_go now jp m tz l =
      (l.filterMap (date_candidate jp m tz)).find? (fun d => is_valid_date now d) := by
  induction l with
  | nil => rfl
  | cons t ts ih =>
    unfold extract_date_by_priority_go
    cases hc : date_candidate jp m tz t with
    | none => simp [List.filterMap_cons, hc, ih]
    | some d =>
      by_cases hv : is_valid_date now d
      · simp [List.filterMap_cons, hc, hv]
      · simp [List.filterMap_cons, hc, hv, ih]

/-! ## Claim C3 — the plausibility filter's epoch constants -/

/-- Claim C3 (code bug evidence): at `now` = 2026-01-01, the code's
`is_valid_date` accepts 1980-01-06T00:00:00Z — the true GPS epoch, which the
spec says must be rejected — because the constant stored in `REJECTED_EPOCHS`
is 1980-01-01 (315532800), not 1980-01-06 (315964800), contradicting the
source comment `1980-01-06 (GPS epoch)`; likewise `-2209075200` is 1899-12-31,
not the commented 1900-01-01 (`-2208988800`).  The spec-modelled filter
rejects the failing input.  Scenario B (CreateDate = Unix epoch ⇒ resolution
fails) does hold in the code. -/
theorem claim_c3 :
    is_valid_date 1767225600000 (315964800 * 1000) = true
  ∧ is_valid_date_spec 1767225600000 (315964800 * 1000) = false
  ∧ (315964800 : Int) = days_from_civil 1980 1 6 * 86400
  ∧ REJECTED_EPOCHS = [0, -2209075200, -2082844800, 315532800, 978307200]
  ∧ (315532800 : Int) = days_from_civil 1980 1 1 * 86400
  ∧ (-2209075200 : Int) = days_from_civil 1899 12 31 * 86400
  ∧ (-2208988800 : Int) = days_from_civil 1900 1 1 * 86400
  ∧ extract_creation_date 1767225600000 (fun _ => none)
      [("CreateDate", JVal.str "1970:01:01 00:00:00")] = none
  ∧ extract_dates_from_metadata 1767225600000 (fun _ => none)
      [("CreateDate", JVal.str "1970:01:01 00:00:00")]
      = .error "No valid creation date found" :=
  ⟨by decide, by decide, by decide, by decide, by decide, by decide, by decide, by decide, rfl⟩

/-! ## Claim C6 — priority search over group-prefixed variants -/

/-- Claim C6 (amended): the resolver computes one candidate per tag —
`find_and_parse_date` takes the first of the six group-prefixed variants whose
value parses, and `UserComment` uses only its two-variant JSON special case —
and returns the first candidate in priority order passing the plausibility
filter; resolution fails exactly when every tag's candidate fails it.  A tag
whose candidate fails the filter is abandoned without trying its later
variants (see the counterexample). -/
theorem claim_c6 (now : Int) (jp : String → Option JVal) (m : Metadata)
    (priority_list : List String) :
    extract_date_by_priority now jp m priority_list =
      (priority_list.filterMap (date_candidate jp m (extract_timezone_offset m))).find?
        (fun d => is_valid_date now d)
  ∧ (extract_date_by_priority now jp m priority_list = none ↔
      ∀ d ∈ priority_list.filterMap (date_candidate jp m (extract_timezone_offset m)),
        is_valid_date now d = false) := by
  have hfind := edbp_go_eq_find now jp m (extract_timezone_offset m) priority_list
  constructor
  · exact hfind
  · unfold extract_date_by_priority
    rw [hfind, List.find?_eq_none]
    simp

/-- Claim C6, counterexample to the original claim: with
`CreateDate = "1970:01:01 00:00:00"` (parses, then fails the filter) and
`EXIF:CreateDate = "2020:05:05 05:05:05"` (parses and passes the filter), the
code returns `none` for the priority list `[CreateDate]`, although checking
all group-prefixed variants of the first tag — the claim's reading, modelled
by `extract_date_by_priority_spec` — yields the passing candidate. -/
theorem claim_c6_cex :
    extract_date_by_priority 1767225600000 (fun _ => none)
      [("CreateDate", JVal.str "1970:01:01 00:00:00"),
       ("EXIF:CreateDate", JVal.str "2020:05:05 05:05:05")] ["CreateDate"] = none
  ∧ extract_date_by_priority_spec 1767225600000 (fun _ => none)
      [("CreateDate", JVal.str "1970:01:01 00:00:00"),
       ("EXIF:CreateDate", JVal.str "2020:05:05 05:05:05")] ["CreateDate"]
      = some 1588655105000
  ∧ parse_date_string "2020:05:05 05:05:05" none = some 1588655105000
  ∧ is_valid_date 1767225600000 1588655105000 = true :=
  ⟨by decide, by decide, by decide, by decide⟩

/-! ## Claim C9 — scenario A end to end -/

/-- Claim C9: for the tag map with only `DateTimeOriginal = "2025:08:10
03:43:16"` and no zone info, as long as the wall clock is not before that
instant, both resolved dates are 2025-08-10T03:43:16.000Z
(= 1754797396000 ms), and the generated filename for counter 1 and extension
`jpg` is the claimed string. -/
theorem claim_c9 (now : Int) (jp : String → Option JVal)
    (h : 1754797396000 ≤ now) :
    extract_dates_from_metadata now jp [("DateTimeOriginal", JVal.str "2025:08:10 03:43:16")]
      = .ok ⟨1754797396000, 1754797396000⟩
  ∧ generate_filename ⟨1754797396000, 1754797396000⟩ "jpg" 1
      = "2025-08-10_03.43.16.000 2025-08-10_03.43.16.000 1.JPG" := by
  have hval : is_valid_date now 1754797396000 = true := by
    unfold is_valid_date
    rw [if_neg (by omega : ¬(1754797396000 : Int) > now)]
    decide
  have hfmc : List.filterMap
      (date_candidate jp [("DateTimeOriginal", JVal.str "2025:08:10 03:43:16")]
        (extract_timezone_offset [("DateTimeOriginal", JVal.str "2025:08:10 03:43:16")]))
      CREATION_DATE_TAGS = [1754797396000] := rfl
  have hfmm : List.filterMap
      (date_candidate jp [("DateTimeOriginal", JVal.str "2025:08:10 03:43:16")]
        (extract_timezone_offset [("DateTimeOriginal", JVal.str "2025:08:10 03:43:16")]))
      MODIFY_DATE_TAGS = [1754797396000] := rfl
  have hcre : extract_creation_date now jp
      [("DateTimeOriginal", JVal.str "2025:08:10 03:43:16")] = some 1754797396000 := by
    unfold extract_creation_date extract_date_by_priority
    rw [edbp_go_eq_find, hfmc]
    exact List.find?_cons_of_pos _ hval
  have hmod : extract_modify_date now jp
      [("DateTimeOriginal", JVal.str "2025:08:10 03:43:16")] = some 1754797396000 := by
    unfold extract_modify_date extract_date_by_priority
    rw [edbp_go_eq_find, hfmm]
    exact List.find?_cons_of_pos _ hval
  refine ⟨?_, by rfl⟩
  unfold extract_dates_from_metadata
  rw [hcre, hmod]

/-- Witness for claim C9 at a concrete wall clock. -/
theorem claim_c9_witness :
    (1754797396000 : Int) ≤ 1800000000000
  ∧ (extract_dates_from_metadata 1800000000000 (fun _ => none)
      [("DateTimeOriginal", JVal.str "2025:08:10 03:43:16")]
      = .ok ⟨1754797396000, 1754797396000⟩
    ∧ generate_filename ⟨1754797396000, 1754797396000⟩ "jpg" 1
      = "2025-08-10_03.43.16.000 2025-08-10_03.43.16.000 1.JPG") :=
  ⟨by decide, claim_c9 1800000000000 (fun _ => none) (by decide)⟩

/-! ## Claim C5 — statistical mode with earliest tie-break -/

/-- Every member of a list of naturals is bounded by the fold of `max`. -/
theorem le_foldr_max (l : List Nat) (x : Nat) (hx : x ∈ l) : x ≤ l.foldr max 0 := by
  induction l with
  | nil => cases hx
  | cons a t ih =>
    rw [List.foldr_cons]
    rcases List.mem_cons.mp hx with rfl | hxt
    · exact Nat.le_max_left _ _
    · exact le_trans (ih hxt) (Nat.le_max_right _ _)

/-- The fold of `max` over a non-empty list of naturals is attained. -/
theorem foldr_max_attained (l : List Nat) (h : l ≠ []) : l.foldr max 0 ∈ l := by
  induction l with
  | nil => exact absurd rfl h
  | cons a t ih =>
    rw [List.foldr_cons]
    rcases max_choice a (t.foldr max 0) with hm | hm
    · rw [hm]; exact List.mem_cons_self a t
    · rw [hm]
      rcases eq_or_ne t [] with rfl | ht
      · have ha : a = 0 := by
          simp only [List.foldr_nil] at hm
          omega
        simp [ha]
      · exact List.mem_cons_of_mem a (ih ht)

/-- The fold of `min` over integers is a lower bound of its inputs. -/
theorem foldl_min_le (t : List Int) : ∀ x : Int,
    t.foldl min x ≤ x ∧ ∀ b ∈ t, t.foldl min x ≤ b := by
  induction t with
  | nil => intro x; exact ⟨le_refl x, by simp⟩
  | cons a t2 ih =>
    intro x
    rw [List.foldl_cons]
    refine ⟨le_trans (ih (min x a)).1 (min_le_left x a), ?_⟩
    intro b hb
    rcases List.mem_cons.mp hb with rfl | hbt
    · exact le_trans (ih (min x b)).1 (min_le_right x b)
    · exact (ih (min x a)).2 b hbt

/-- The fold of `min` over integers is one of its inputs. -/
theorem foldl_min_mem (t : List Int) : ∀ x : Int, t.foldl min x ∈ x :: t := by
  induction t with
  | nil => intro x; simp
  | cons a t2 ih =>
    intro x
    rw [List.foldl_cons]
    rcases List.mem_cons.mp (ih (min x a)) with he | ht
    · rw [he]
      rcases min_choice x a with hm | hm
      · rw [hm]; exact List.mem_cons_self _ _
      · rw [hm]; exact List.mem_cons_of_mem _ (List.mem_cons_self _ _)
    · exact List.mem_cons_of_mem _ (List.mem_cons_of_mem _ ht)

/-- `Iterator::min` on a non-empty list of integers: it exists, is a member,
and is a lower bound. -/
theorem min_of_list_spec (l : List Int) (h : l ≠ []) :
    ∃ a, l.min? = some a ∧ a ∈ l ∧ ∀ b ∈ l, a ≤ b := by
  cases l with
  | nil => exact absurd rfl h
  | cons x t =>
    refine ⟨t.foldl min x, rfl, foldl_min_mem t x, ?_⟩
    intro b hb
    rcases List.mem_cons.mp hb with rfl | hbt
    · exact (foldl_min_le t b).1
    · exact (foldl_min_le t x).2 b hbt

/-- No class multiplicity exceeds `max_count`. -/
theorem count_le_max_count (ds : List Int) (d : Int) (hd : d ∈ ds) :
    count_of ds (timestamp d) ≤ max_count ds := by
  unfold max_count
  exact le_foldr_max _ _ (List.mem_map_of_mem _ hd)

/-- `max_count` is attained by some member's class. -/
theorem max_count_attained (ds : List Int) (h : ds ≠ []) :
    ∃ d ∈ ds, count_of ds (timestamp d) = max_count ds := by
  have hm := foldr_max_attained (ds.map (fun d => count_of ds (timestamp d)))
    (by simpa using h)
  rcases List.mem_map.mp hm with ⟨d, hd, hEq⟩
  exact ⟨d, hd, hEq⟩

/-- Claim C5: for every array-of-strings date value whose elements yield at
least one parsed timestamp, `find_mode_or_earliest` selects a timestamp of the
strictly most frequent second-precision value when one exists (regardless of
position), and on a tie among modes the earliest timestamp among the tied
modes. -/
theorem claim_c5 (arr : List JVal) (timezone_offset : Option Int)
    (h : parse_date_array arr timezone_offset ≠ []) :
    mode_selection_spec (parse_date_array arr timezone_offset) := by
  set ds := parse_date_array arr timezone_offset with hds
  obtain ⟨d0, hd0, hc0⟩ := max_count_attained ds h
  have hmodes : ds.filter (fun d => count_of ds (timestamp d) = max_count ds) ≠ [] := by
    intro hnil
    have hmem : d0 ∈ ds.filter (fun d => count_of ds (timestamp d) = max_count ds) :=
      List.mem_filter.mpr ⟨hd0, by simpa using hc0⟩
    rw [hnil] at hmem
    cases hmem
  obtain ⟨r, hmin, hrmem, hrle⟩ := min_of_list_spec _ hmodes
  have hrds : r ∈ ds := (List.mem_filter.mp hrmem).1
  have hrcnt : count_of ds (timestamp r) = max_count ds := by
    have := (List.mem_filter.mp hrmem).2
    simpa using this
  refine ⟨r, hmin, hrds, hrcnt, ?_, ?_⟩
  · intro d hd hdc
    exact hrle d (List.mem_filter.mpr ⟨hd, by simpa using hdc⟩)
  · intro v hv hstrict
    by_contra hne
    have h1 : count_of ds (timestamp r) < count_of ds (timestamp v) := hstrict r hrds hne
    have h2 : count_of ds (timestamp v) ≤ max_count ds := count_le_max_count ds v hv
    omega

/-- Witness for claim C5: two tracks agree on 2020-05-05, one disagrees. -/
theorem claim_c5_witness :
    parse_date_array [JVal.str "2020:05:05 05:05:05", JVal.str "2021:06:06 06:06:06",
      JVal.str "2020:05:05 05:05:05"] none ≠ []
  ∧ mode_selection_spec (parse_date_array [JVal.str "2020:05:05 05:05:05",
      JVal.str "2021:06:06 06:06:06", JVal.str "2020:05:05 05:05:05"] none) :=
  ⟨by decide, claim_c5 [JVal.str "2020:05:05 05:05:05", JVal.str "2021:06:06 06:06:06",
      JVal.str "2020:05:05 05:05:05"] none (by decide)⟩

/-! ## The collision walk: equations and behavior lemmas -/

/-- Unfolding equation: a free slot is the placement target. -/
theorem walkFrom_free {slots : Nat → Slot} {content : List Nat} {c : Nat}
    (h : slots c = .free) : walkFrom slots content c = .place c := by
  conv_lhs => unfold walkFrom
  rw [h]

/-- Unfolding equation: identical content is a duplicate. -/
theorem walkFrom_dup {slots : Nat → Slot} {content : List Nat} {c : Nat}
    (h : slots c = .filled content) : walkFrom slots content c = .dup c := by
  conv_lhs => unfold walkFrom
  rw [h]
  simp

/-- Unfolding equation: different content advances the counter while it is
below the ceiling. -/
theorem walkFrom_step_filled {slots : Nat → Slot} {content : List Nat} {c : Nat}
    (e : List Nat) (h : slots c = .filled e) (hne : e ≠ content) (hc : c < 10000) :
    walkFrom slots content c = walkFrom slots content (c + 1) := by
  conv_lhs => unfold walkFrom
  rw [h]
  show (if e = content then WalkOutcome.dup c
    else if _h : c + 1 > 10000 then WalkOutcome.fail
    else walkFrom slots content (c + 1)) = walkFrom slots content (c + 1)
  rw [if_neg hne, dif_neg (by omega : ¬c + 1 > 10000)]

/-- Unfolding equation: different content at the ceiling gives up. -/
theorem walkFrom_stop_filled {slots : Nat → Slot} {content : List Nat} {c : Nat}
    (e : List Nat) (h : slots c = .filled e) (hne : e ≠ content) (hc : 10000 ≤ c) :
    walkFrom slots content c = .fail := by
  conv_lhs => unfold walkFrom
  rw [h]
  show (if e = content then WalkOutcome.dup c
    else if _h : c + 1 > 10000 then WalkOutcome.fail
    else walkFrom slots content (c + 1)) = WalkOutcome.fail
  rw [if_neg hne, dif_pos (by omega : c + 1 > 10000)]

/-- Unfolding equation: an unreadable existing file advances the counter
while it is below the ceiling. -/
theorem walkFrom_step_unreadable {slots : Nat → Slot} {content : List Nat} {c : Nat}
    (h : slots c = .unreadable) (hc : c < 10000) :
    walkFrom slots content c = walkFrom slots content (c + 1) := by
  conv_lhs => unfold walkFrom
  rw [h]
  show (if _h : c + 1 > 10000 then WalkOutcome.fail
    else walkFrom slots content (c + 1)) = walkFrom slots content (c + 1)
  rw [dif_neg (by omega : ¬c + 1 > 10000)]

/-- Unfolding equation: an unreadable existing file at the ceiling gives up. -/
theorem walkFrom_stop_unreadable {slots : Nat → Slot} {content : List Nat} {c : Nat}
    (h : slots c = .unreadable) (hc : 10000 ≤ c) :
    walkFrom slots content c = .fail := by
  conv_lhs => unfold walkFrom
  rw [h]
  show (if _h : c + 1 > 10000 then WalkOutcome.fail
    else walkFrom slots content (c + 1)) = WalkOutcome.fail
  rw [dif_pos (by omega : c + 1 > 10000)]

/-- A placement target reported by the walk is a free slot. -/
theorem walk_place_free (slots : Nat → Slot) (content : List Nat) :
    ∀ n c k, 10001 - c = n → walkFrom slots content c = .place k → slots k = .free := by
  intro n
  induction n with
  | zero =>
    intro c k hn hw
    cases hs : slots c with
    | free =>
      rw [walkFrom_free hs] at hw
      injection hw with h
      subst h
      exact hs
    | filled e =>
      by_cases he : e = content
      · subst he; rw [walkFrom_dup hs] at hw; cases hw
      · rw [walkFrom_stop_filled e hs he (by omega)] at hw; cases hw
    | unreadable =>
      rw [walkFrom_stop_unreadable hs (by omega)] at hw; cases hw
  | succ n ih =>
    intro c k hn hw
    cases hs : slots c with
    | free =>
      rw [walkFrom_free hs] at hw
      injection hw with h
      subst h
      exact hs
    | filled e =>
      by_cases he : e = content
      · subst he; rw [walkFrom_dup hs] at hw; cases hw
      · by_cases hc : c < 10000
        · rw [walkFrom_step_filled e hs he hc] at hw
          exact ih (c + 1) k (by omega) hw
        · rw [walkFrom_stop_filled e hs he (by omega)] at hw; cases hw
    | unreadable =>
      by_cases hc : c < 10000
      · rw [walkFrom_step_unreadable hs hc] at hw
        exact ih (c + 1) k (by omega) hw
      · rw [walkFrom_stop_unreadable hs (by omega)] at hw; cases hw

/-- The walk reaches and places at the first free slot when nothing before it
is free or holds the new content. -/
theorem walk_place_of_prefix (slots : Nat → Slot) (content : List Nat) :
    ∀ n s c, c - s = n → s ≤ c → c ≤ 10000 → slots c = .free →
    (∀ i, s ≤ i → i < c → slots i ≠ .free ∧ slots i ≠ .filled content) →
    walkFrom slots content s = .place c := by
  intro n
  induction n with
  | zero =>
    intro s c hn hs hc hfree _hpre
    have hsc : s = c := by omega
    subst hsc
    exact walkFrom_free hfree
  | succ n ih =>
    intro s c hn hs hc hfree hpre
    have hlt : s < c := by omega
    have hps := hpre s (le_refl s) hlt
    cases hsl : slots s with
    | free => exact absurd hsl hps.1
    | filled e =>
      have he : e ≠ content := by
        intro heq
        subst heq
        exact hps.2 hsl
      rw [walkFrom_step_filled e hsl he (by omega)]
      exact ih (s + 1) c (by omega) (by omega) hc hfree (fun i h1 h2 => hpre i (by omega) h2)
    | unreadable =>
      rw [walkFrom_step_unreadable hsl (by omega)]
      exact ih (s + 1) c (by omega) (by omega) hc hfree (fun i h1 h2 => hpre i (by omega) h2)

/-- The walk reaches and reports a duplicate at the first slot holding the
new content when nothing before it is free or holds that content. -/
theorem walk_dup_of_prefix (slots : Nat → Slot) (content : List Nat) :
    ∀ n s c, c - s = n → s ≤ c → c ≤ 10000 → slots c = .filled content →
    (∀ i, s ≤ i → i < c → slots i ≠ .free ∧ slots i ≠ .filled content) →
    walkFrom slots content s = .dup c := by
  intro n
  induction n with
  | zero =>
    intro s c hn hs hc hdup _hpre
    have hsc : s = c := by omega
    subst hsc
    exact walkFrom_dup hdup
  | succ n ih =>
    intro s c hn hs hc hdup hpre
    have hlt : s < c := by omega
    have hps := hpre s (le_refl s) hlt
    cases hsl : slots s with
    | free => exact absurd hsl hps.1
    | filled e =>
      have he : e ≠ content := by
        intro heq
        subst heq
        exact hps.2 hsl
      rw [walkFrom_step_filled e hsl he (by omega)]
      exact ih (s + 1) c (by omega) (by omega) hc hdup (fun i h1 h2 => hpre i (by omega) h2)
    | unreadable =>
      rw [walkFrom_step_unreadable hsl (by omega)]
      exact ih (s + 1) c (by omega) (by omega) hc hdup (fun i h1 h2 => hpre i (by omega) h2)

/-- When every counter from `s` to the ceiling holds different content, the
walk gives up instead of looping. -/
theorem walk_fail_of_all (slots : Nat → Slot) (content : List Nat) :
    ∀ n s, 10001 - s = n → 1 ≤ s → s ≤ 10000 →
    (∀ i, s ≤ i → i ≤ 10000 → ∃ e, slots i = .filled e ∧ e ≠ content) →
    walkFrom slots content s = .fail := by
  intro n
  induction n with
  | zero =>
    intro s hn h1 h2 _h3
    exact absurd hn (by omega)
  | succ n ih =>
    intro s hn h1 h2 hall
    obtain ⟨e, hsl, hne⟩ := hall s (le_refl s) h2
    by_cases hc : s < 10000
    · rw [walkFrom_step_filled e hsl hne hc]
      exact ih (s + 1) (by omega) (by omega) (by omega)
        (fun i hi1 hi2 => hall i (by omega) hi2)
    · exact walkFrom_stop_filled e hsl hne (by omega)

/-! ## Evaluations of `handle_worker_result` by walk outcome -/

/-- Handler evaluation: the walk found a duplicate — record it and skip. -/
theorem handle_dup_eq (env : IOEnv) (st : PState) (path : String) (pf : ProcessedFile)
    (content : List Nat) (k : Nat)
    (hsrc : st.sources path = some content)
    (hw : walkFrom st.out content 1 = .dup k) :
    handle_worker_result env st path (.ok pf) =
      { st with stats := { st.stats with
          skipped := st.stats.skipped + 1,
          duplicates := st.stats.duplicates ++
            [(path, generate_filename pf.dates pf.extension k)] } } := by
  unfold handle_worker_result
  rw [hsrc]
  dsimp only
  rw [hw]

/-- Handler evaluation: the walk exhausted the ceiling — a per-file failure. -/
theorem handle_walkfail_eq (env : IOEnv) (st : PState) (path : String) (pf : ProcessedFile)
    (content : List Nat)
    (hsrc : st.sources path = some content)
    (hw : walkFrom st.out content 1 = .fail) :
    handle_worker_result env st path (.ok pf) =
      { st with stats := { st.stats with failed := st.stats.failed + 1 } } := by
  unfold handle_worker_result
  rw [hsrc]
  dsimp only
  rw [hw]

/-- Transfer evaluation: free target, same-volume rename, no fault. -/
theorem transfer_moved_eq (env : IOEnv) (out : Nat → Slot)
    (sources : String → Option (List Nat)) (path : String) (dates : MediaDates)
    (extension : String) (k : Nat) (content : List Nat)
    (hfree : out k = .free) (hrf : env.renameFails = false) :
    transfer_file env out sources path dates extension k true content =
      ⟨.moved, updateSlot out k (.filled content),
        fun p => if p = path then none else sources p⟩ := by
  unfold transfer_file
  rw [hfree]
  unfold transfer_write
  rw [hrf]
  simp

/-- Transfer evaluation: free target, cross-volume copy, no fault. -/
theorem transfer_copied_eq (env : IOEnv) (out : Nat → Slot)
    (sources : String → Option (List Nat)) (path : String) (dates : MediaDates)
    (extension : String) (k : Nat) (content : List Nat)
    (hfree : out k = .free) (hcf : env.copyFails = false) (hrm : env.removeFails = false) :
    transfer_file env out sources path dates extension k false content =
      ⟨.copied, updateSlot out k (.filled content),
        fun p => if p = path then none else sources p⟩ := by
  unfold transfer_file
  rw [hfree]
  unfold transfer_write
  rw [hcf, hrm]
  simp

/-- Transfer evaluation: free target, cross-volume copy succeeds but deleting
the source fails — the copied destination is kept. -/
theorem transfer_removefail_eq (env : IOEnv) (out : Nat → Slot)
    (sources : String → Option (List Nat)) (path : String) (dates : MediaDates)
    (extension : String) (k : Nat) (content : List Nat)
    (hfree : out k = .free) (hcf : env.copyFails = false) (hrm : env.removeFails = true) :
    transfer_file env out sources path dates extension k false content =
      ⟨.ioError "Failed to delete source file after copy",
        updateSlot out k (.filled content), sources⟩ := by
  unfold transfer_file
  rw [hfree]
  unfold transfer_write
  rw [hcf, hrm]
  simp

/-- Transfer evaluation: free target, cross-volume copy fails — nothing
changes. -/
theorem transfer_copyfail_eq (env : IOEnv) (out : Nat → Slot)
    (sources : String → Option (List Nat)) (path : String) (dates : MediaDates)
    (extension : String) (k : Nat) (content : List Nat)
    (hfree : out k = .free) (hcf : env.copyFails = true) :
    transfer_file env out sources path dates extension k false content =
      ⟨.ioError "Failed to copy file", out, sources⟩ := by
  unfold transfer_file
  rw [hfree]
  unfold transfer_write
  rw [hcf]
  simp

/-- Handler evaluation: placement by rename at counter `k`. -/
theorem handle_moved_eq (env : IOEnv) (st : PState) (path : String) (pf : ProcessedFile)
    (content : List Nat) (k : Nat)
    (hsrc : st.sources path = some content)
    (hw : walkFrom st.out content 1 = .place k)
    (hsm : pf.should_move = true) (hrf : env.renameFails = false) :
    handle_worker_result env st path (.ok pf) =
      { stats := { st.stats with moved := st.stats.moved + 1 },
        out := updateSlot st.out k (.filled content),
        sources := fun p => if p = path then none else st.sources p } := by
  have hfree : st.out k = .free := walk_place_free st.out content (10001 - 1) 1 k rfl hw
  unfold handle_worker_result
  rw [hsrc]
  dsimp only
  rw [hw]
  dsimp only
  rw [hsm,
    transfer_moved_eq env st.out st.sources path pf.dates pf.extension k content hfree hrf]

/-- Handler evaluation: placement by copy-then-delete at counter `k`. -/
theorem handle_copied_eq (env : IOEnv) (st : PState) (path : String) (pf : ProcessedFile)
    (content : List Nat) (k : Nat)
    (hsrc : st.sources path = some content)
    (hw : walkFrom st.out content 1 = .place k)
    (hsm : pf.should_move = false) (hcf : env.copyFails = false)
    (hrm : env.removeFails = false) :
    handle_worker_result env st path (.ok pf) =
      { stats := { st.stats with copied := st.stats.copied + 1 },
        out := updateSlot st.out k (.filled content),
        sources := fun p => if p = path then none else st.sources p } := by
  have hfree : st.out k = .free := walk_place_free st.out content (10001 - 1) 1 k rfl hw
  unfold handle_worker_result
  rw [hsrc]
  dsimp only
  rw [hw]
  dsimp only
  rw [hsm,
    transfer_copied_eq env st.out st.sources path pf.dates pf.extension k content hfree hcf hrm]

/-- Handler evaluation: copy succeeded, source deletion failed — reported as a
per-file failure, destination kept, source kept. -/
theorem handle_removefail_eq (env : IOEnv) (st : PState) (path : String) (pf : ProcessedFile)
    (content : List Nat) (k : Nat)
    (hsrc : st.sources path = some content)
    (hw : walkFrom st.out content 1 = .place k)
    (hsm : pf.should_move = false) (hcf : env.copyFails = false)
    (hrm : env.removeFails = true) :
    handle_worker_result env st path (.ok pf) =
      { stats := { st.stats with failed := st.stats.failed + 1 },
        out := updateSlot st.out k (.filled content),
        sources := st.sources } := by
  have hfree : st.out k = .free := walk_place_free st.out content (10001 - 1) 1 k rfl hw
  unfold handle_worker_result
  rw [hsrc]
  dsimp only
  rw [hw]
  dsimp only
  rw [hsm,
    transfer_removefail_eq env st.out st.sources path pf.dates pf.extension k content hfree
      hcf hrm]

/-- Handler evaluation: copy failed — reported as a per-file failure, nothing
written, source kept. -/
theorem handle_copyfail_eq (env : IOEnv) (st : PState) (path : String) (pf : ProcessedFile)
    (content : List Nat) (k : Nat)
    (hsrc : st.sources path = some content)
    (hw : walkFrom st.out content 1 = .place k)
    (hsm : pf.should_move = false) (hcf : env.copyFails = true) :
    handle_worker_result env st path (.ok pf) =
      { stats := { st.stats with failed := st.stats.failed + 1 },
        out := st.out,
        sources := st.sources } := by
  have hfree : st.out k = .free := walk_place_free st.out content (10001 - 1) 1 k rfl hw
  unfold handle_worker_result
  rw [hsrc]
  dsimp only
  rw [hw]
  dsimp only
  rw [hsm,
    transfer_copyfail_eq env st.out st.sources path pf.dates pf.extension k content hfree hcf]

/-! ## Claim C2 — collision resolution in the placement protocol -/

/-- Claim C2: starting at counter 1, the collision walk places at a counter
whose candidate path has no file; byte-identical existing content is recorded
as a duplicate and skipped (no overwrite, no failure); different content
increments the counter and retries; and exceeding 10000 attempts turns the
placement into a reported per-file failure instead of looping. -/
theorem claim_c2 (slots : Nat → Slot) (content : List Nat) (c : Nat)
    (env : IOEnv) (st : PState) (path : String) (pf : ProcessedFile)
    (hc1 : 1 ≤ c) (hc2 : c ≤ 10000) (hsrc : st.sources path = some content) :
    (slots c = .free → walkFrom slots content c = .place c)
  ∧ (slots c = .filled content → walkFrom slots content c = .dup c)
  ∧ (∀ e, slots c = .filled e → e ≠ content → c < 10000 →
      walkFrom slots content c = walkFrom slots content (c + 1))
  ∧ (∀ e, slots c = .filled e → e ≠ content → c = 10000 →
      walkFrom slots content c = .fail)
  ∧ ((∀ i, 1 ≤ i → i ≤ 10000 → ∃ e, slots i = .filled e ∧ e ≠ content) →
      walkFrom slots content 1 = .fail)
  ∧ (∀ k, walkFrom st.out content 1 = .dup k →
      (handle_worker_result env st path (.ok pf)).stats.skipped = st.stats.skipped + 1
    ∧ (handle_worker_result env st path (.ok pf)).stats.duplicates =
        st.stats.duplicates ++ [(path, generate_filename pf.dates pf.extension k)]
    ∧ (handle_worker_result env st path (.ok pf)).out = st.out
    ∧ (handle_worker_result env st path (.ok pf)).stats.failed = st.stats.failed)
  ∧ (walkFrom st.out content 1 = .fail →
      (handle_worker_result env st path (.ok pf)).stats.failed = st.stats.failed + 1
    ∧ (handle_worker_result env st path (.ok pf)).out = st.out)
  ∧ (∀ k, walkFrom st.out content 1 = .place k →
      st.out k = .free
    ∧ (pf.should_move = true → env.renameFails = false →
        (handle_worker_result env st path (.ok pf)).out k = .filled content
      ∧ (handle_worker_result env st path (.ok pf)).stats.moved = st.stats.moved + 1)) := by
  refine ⟨fun h => walkFrom_free h, fun h => walkFrom_dup h,
    fun e h hne hlt => walkFrom_step_filled e h hne hlt,
    fun e h hne hEq => walkFrom_stop_filled e h hne (by omega),
    fun hall => walk_fail_of_all slots content (10001 - 1) 1 rfl (by omega) (by omega) hall,
    ?_, ?_, ?_⟩
  · intro k hw
    rw [handle_dup_eq env st path pf content k hsrc hw]
    simp
  · intro hw
    rw [handle_walkfail_eq env st path pf content hsrc hw]
    simp
  · intro k hw
    refine ⟨walk_place_free st.out content (10001 - 1) 1 k rfl hw, ?_⟩
    intro hsm hrf
    rw [handle_moved_eq env st path pf content k hsrc hw hsm hrf]
    simp [updateSlot]

/-- Witness for claim C2: a state whose first candidate slot already holds the
identical content; the result is recorded as a duplicate and skipped. -/
theorem claim_c2_witness :
    walkFrom (fun i => if i = 1 then Slot.filled [1] else Slot.free) [1] 1 = WalkOutcome.dup 1
  ∧ (handle_worker_result {}
      { stats := {},
        out := fun i => if i = 1 then Slot.filled [1] else Slot.free,
        sources := fun p => if p = "src" then some [1] else none }
      "src" (.ok ⟨⟨0, 0⟩, "jpg", true⟩)).stats.skipped = 1 := by
  have h := claim_c2 (fun i => if i = 1 then Slot.filled [1] else Slot.free) [1] 1 {}
    { stats := {},
      out := fun i => if i = 1 then Slot.filled [1] else Slot.free,
      sources := fun p => if p = "src" then some [1] else none }
    "src" ⟨⟨0, 0⟩, "jpg", true⟩ (by decide) (by decide) (by decide)
  have hdup := h.2.1 (by decide)
  refine ⟨hdup, ?_⟩
  have hs := (h.2.2.2.2.2.1) 1 hdup
  simpa using hs.1

/-! ## Claim C8 — cross-volume copy-then-delete semantics -/

/-- Claim C8: in a cross-volume transfer, the source is deleted only after the
copy succeeds (a failed copy leaves everything unchanged and the source in
place), and a failed source deletion after a successful copy is reported as a
per-file failure while the already-copied destination file is kept. -/
theorem claim_c8 (env : IOEnv) (st : PState) (path : String) (pf : ProcessedFile)
    (content : List Nat) (k : Nat)
    (hsrc : st.sources path = some content)
    (hsm : pf.should_move = false)
    (hw : walkFrom st.out content 1 = .place k) :
    (env.copyFails = false → env.removeFails = true →
      (handle_worker_result env st path (.ok pf)).stats.failed = st.stats.failed + 1
    ∧ (handle_worker_result env st path (.ok pf)).out k = .filled content
    ∧ (handle_worker_result env st path (.ok pf)).sources path = some content
    ∧ (handle_worker_result env st path (.ok pf)).stats.moved = st.stats.moved
    ∧ (handle_worker_result env st path (.ok pf)).stats.copied = st.stats.copied)
  ∧ (env.copyFails = true →
      (handle_worker_result env st path (.ok pf)).out = st.out
    ∧ (handle_worker_result env st path (.ok pf)).sources path = some content
    ∧ (handle_worker_result env st path (.ok pf)).stats.failed = st.stats.failed + 1)
  ∧ (env.copyFails = false → env.removeFails = false →
      (handle_worker_result env st path (.ok pf)).out k = .filled content
    ∧ (handle_worker_result env st path (.ok pf)).sources path = none
    ∧ (handle_worker_result env st path (.ok pf)).stats.copied = st.stats.copied + 1) := by
  refine ⟨?_, ?_, ?_⟩
  · intro hcf hrm
    rw [handle_removefail_eq env st path pf content k hsrc hw hsm hcf hrm]
    simp [updateSlot, hsrc]
  · intro hcf
    rw [handle_copyfail_eq env st path pf content k hsrc hw hsm hcf]
    simp [hsrc]
  · intro hcf hrm
    rw [handle_copied_eq env st path pf content k hsrc hw hsm hcf hrm]
    simp [updateSlot]

/-- Witness for claim C8: copy succeeds, deleting the source fails; the run is
counted as failed but the destination file keeps the copied content. -/
theorem claim_c8_witness :
    (handle_worker_result ⟨false, false, true⟩
      { stats := {}, out := fun _ => Slot.free,
        sources := fun p => if p = "s" then some [5] else none }
      "s" (.ok ⟨⟨0, 0⟩, "jpg", false⟩)).stats.failed = 1
  ∧ (handle_worker_result ⟨false, false, true⟩
      { stats := {}, out := fun _ => Slot.free,
        sources := fun p => if p = "s" then some [5] else none }
      "s" (.ok ⟨⟨0, 0⟩, "jpg", false⟩)).out 1 = Slot.filled [5]
  ∧ (handle_worker_result ⟨false, false, true⟩
      { stats := {}, out := fun _ => Slot.free,
        sources := fun p => if p = "s" then some [5] else none }
      "s" (.ok ⟨⟨0, 0⟩, "jpg", false⟩)).sources "s" = some [5] := by
  have hw : walkFrom (fun _ => Slot.free) [5] 1 = .place 1 := walkFrom_free rfl
  have h := claim_c8 ⟨false, false, true⟩
    { stats := {}, out := fun _ => Slot.free,
      sources := fun p => if p = "s" then some [5] else none }
    "s" ⟨⟨0, 0⟩, "jpg", false⟩ [5] 1 rfl rfl hw
  have h1 := h.1 rfl rfl
  exact ⟨by simpa using h1.1, h1.2.1, h1.2.2.1⟩

/-! ## Claim C7 — idempotence of placement -/

/-- After a successful first placement, the output slots are a point update of
the original slots and the second source path is still readable. -/
theorem handle_place_parts (env : IOEnv) (st : PState) (path : String) (pf : ProcessedFile)
    (content : List Nat) (k : Nat)
    (hsrc : st.sources path = some content)
    (hw : walkFrom st.out content 1 = .place k)
    (hrf : env.renameFails = false) (hcf : env.copyFails = false)
    (hrm : env.removeFails = false) :
    (handle_worker_result env st path (.ok pf)).out = updateSlot st.out k (.filled content)
  ∧ (handle_worker_result env st path (.ok pf)).sources
      = (fun p => if p = path then none else st.sources p) := by
  cases hsm : pf.should_move with
  | false =>
    rw [handle_copied_eq env st path pf content k hsrc hw hsm hcf hrm]
    exact ⟨rfl, rfl⟩
  | true =>
    rw [handle_moved_eq env st path pf content k hsrc hw hsm hrf]
    exact ⟨rfl, rfl⟩

/-- Claim C7: placing the same new content twice (from two distinct sources,
with a fault-free filesystem and a free candidate slot available) is
idempotent — the timestamp-derived name family holds exactly one physical
file with that content, the second placement is recorded as a duplicate of
the first's destination, nothing is overwritten, and the second source
survives. -/
theorem claim_c7 (env : IOEnv) (st : PState) (p1 p2 : String) (pf : ProcessedFile)
    (content : List Nat)
    (hne : p1 ≠ p2)
    (h1 : st.sources p1 = some content)
    (h2 : st.sources p2 = some content)
    (hnew : ∀ i, st.out i ≠ .filled content)
    (hfree : ∃ i, 1 ≤ i ∧ i ≤ 10000 ∧ st.out i = .free)
    (hrf : env.renameFails = false) (hcf : env.copyFails = false)
    (hrm : env.removeFails = false) :
    idempotent_placement_spec env st p1 p2 pf content := by
  classical
  have hP : ∃ i, 1 ≤ i ∧ i ≤ 10000 ∧ st.out i = .free := hfree
  set c := Nat.find hP with hc
  obtain ⟨hc1, hc2, hcfree⟩ := Nat.find_spec hP
  have hmin : ∀ i, 1 ≤ i → i < c → st.out i ≠ .free ∧ st.out i ≠ .filled content := by
    intro i hi1 hi2
    refine ⟨?_, hnew i⟩
    intro hif
    exact Nat.find_min hP hi2 ⟨hi1, by omega, hif⟩
  have hw1 : walkFrom st.out content 1 = .place c :=
    walk_place_of_prefix st.out content (c - 1) 1 c rfl (by omega) hc2 hcfree
      (fun i hi1 hi2 => hmin i hi1 hi2)
  obtain ⟨hout1, hsrc1⟩ := handle_place_parts env st p1 pf content c h1 hw1 hrf hcf hrm
  have hsrc1p2 : (handle_worker_result env st p1 (.ok pf)).sources p2 = some content := by
    rw [hsrc1]
    show (if p2 = p1 then none else st.sources p2) = some content
    rw [if_neg (Ne.symm hne)]
    exact h2
  have hout1c : (handle_worker_result env st p1 (.ok pf)).out c = .filled content := by
    rw [hout1]
    simp [updateSlot]
  have hout1ne : ∀ i, i ≠ c → (handle_worker_result env st p1 (.ok pf)).out i = st.out i := by
    intro i hi
    rw [hout1]
    simp [updateSlot, hi]
  have hw2 : walkFrom (handle_worker_result env st p1 (.ok pf)).out content 1 = .dup c := by
    apply walk_dup_of_prefix _ content (c - 1) 1 c rfl (by omega) hc2 hout1c
    intro i hi1 hi2
    rw [hout1ne i (by omega)]
    exact hmin i hi1 hi2
  have hst2 := handle_dup_eq env (handle_worker_result env st p1 (.ok pf)) p2 pf content c
    hsrc1p2 hw2
  refine ⟨c, hc1, hc2, hout1c, hout1ne, ?_, ?_, ?_, ?_, ?_⟩
  · rw [hst2]
  · intro i
    rw [hst2]
    show (handle_worker_result env st p1 (.ok pf)).out i = .filled content ↔ i = c
    constructor
    · intro hi
      by_contra hic
      rw [hout1ne i hic] at hi
      exact hnew i hi
    · intro hi
      subst hi
      exact hout1c
  · rw [hst2]
  · rw [hst2]
  · rw [hst2]
    exact hsrc1p2

/-- Witness for claim C7: two distinct sources with identical content placed
into an empty output directory. -/
theorem claim_c7_witness :
    ("a" : String) ≠ "b"
  ∧ idempotent_placement_spec ⟨false, false, false⟩
      { stats := {}, out := fun _ => Slot.free,
        sources := fun p => if p = "a" then some [9] else if p = "b" then some [9] else none }
      "a" "b" ⟨⟨0, 0⟩, "jpg", true⟩ [9] := by
  refine ⟨by decide, ?_⟩
  apply claim_c7
  · decide
  · rfl
  · rfl
  · intro i h
    exact Slot.noConfusion h
  · exact ⟨1, by decide, by decide, rfl⟩
  · rfl
  · rfl
  · rfl

/-! ## Claim C10 — per-result statistics invariant -/

/-- Claim C10: handling any single worker result increments exactly one of
`moved`, `copied`, `skipped`, `failed` by exactly one (every path through the
handler — including walks that pass unreadable candidates with a warning —
reaches exactly one terminal outcome), the duplicates list grows by one pair
exactly when `skipped` grows, and therefore `skipped` always equals the length
of the duplicates list. -/
theorem claim_c10 (env : IOEnv) (st : PState) (path : String)
    (result : Except String ProcessedFile) :
    one_outcome_step st.stats (handle_worker_result env st path result).stats
  ∧ ((handle_worker_result env st path result).stats.skipped = st.stats.skipped + 1 ↔
      (handle_worker_result env st path result).stats.duplicates.length
        = st.stats.duplicates.length + 1)
  ∧ (st.stats.skipped = st.stats.duplicates.length →
      (handle_worker_result env st path result).stats.skipped
        = (handle_worker_result env st path result).stats.duplicates.length) := by
  have hstep : one_outcome_step st.stats (handle_worker_result env st path result).stats := by
    unfold handle_worker_result one_outcome_step
    cases result with
    | error e =>
      refine Or.inr (Or.inr (Or.inr ?_))
      simp
    | ok pf =>
      cases hs : st.sources path with
      | none =>
        refine Or.inr (Or.inr (Or.inr ?_))
        simp [hs]
      | some content =>
        cases hw : walkFrom st.out content 1 with
        | dup k =>
          refine Or.inr (Or.inr (Or.inl ?_))
          exact ⟨by simp [hs, hw], by simp [hs, hw], by simp [hs, hw], by simp [hs, hw],
            ⟨(path, generate_filename pf.dates pf.extension k), by simp [hs, hw]⟩⟩
        | fail =>
          refine Or.inr (Or.inr (Or.inr ?_))
          simp [hs, hw]
        | place k =>
          cases ht : (transfer_file env st.out st.sources path pf.dates pf.extension k
              pf.should_move content).res with
          | moved =>
            refine Or.inl ?_
            simp [hs, hw, ht]
          | copied =>
            refine Or.inr (Or.inl ?_)
            simp [hs, hw, ht]
          | skippedDup dest =>
            refine Or.inr (Or.inr (Or.inl ?_))
            exact ⟨by simp [hs, hw, ht], by simp [hs, hw, ht], by simp [hs, hw, ht],
              by simp [hs, hw, ht], ⟨(path, dest), by simp [hs, hw, ht]⟩⟩
          | ioError msg =>
            refine Or.inr (Or.inr (Or.inr ?_))
            simp [hs, hw, ht]
  refine ⟨hstep, ?_, ?_⟩
  · rcases hstep with ⟨h1, h2, h3, h4, h5⟩ | ⟨h1, h2, h3, h4, h5⟩ |
      ⟨h1, h2, h3, h4, pr, h5⟩ | ⟨h1, h2, h3, h4, h5⟩
    · rw [h3, h5]; omega
    · rw [h3, h5]; omega
    · rw [h1, h5]; simp
    · rw [h4, h5]; omega
  · intro hinv
    rcases hstep with ⟨h1, h2, h3, h4, h5⟩ | ⟨h1, h2, h3, h4, h5⟩ |
      ⟨h1, h2, h3, h4, pr, h5⟩ | ⟨h1, h2, h3, h4, h5⟩
    · rw [h3, h5, hinv]
    · rw [h3, h5, hinv]
    · rw [h1, h5, hinv]; simp
    · rw [h4, h5, hinv]

/-- Witness for claim C10 at a concrete failed result on a fresh state. -/
theorem claim_c10_witness :
    one_outcome_step ({} : ProcessingStats)
      (handle_worker_result {}
        { stats := {}, out := fun _ => Slot.free, sources := fun _ => none }
        "w" (.error "boom")).stats
  ∧ (handle_worker_result {}
        { stats := {}, out := fun _ => Slot.free, sources := fun _ => none }
        "w" (.error "boom")).stats.skipped
      = (handle_worker_result {}
        { stats := {}, out := fun _ => Slot.free, sources := fun _ => none }
        "w" (.error "boom")).stats.duplicates.length := by
  have h := claim_c10 {}
    { stats := {}, out := fun _ => Slot.free, sources := fun _ => none } "w" (.error "boom")
  exact ⟨h.1, h.2.2 (by decide)⟩

/-! ## The batch extractor: map-key lemmas and unfolding equations -/

/-- Key membership after a `HashMap::insert`. -/
theorem mem_hmKeys_insert {α : Type} (m : HMap α) (k p : String) (v : α) :
    p ∈ hmKeys (hmInsert m k v) ↔ p = k ∨ p ∈ hmKeys m := by
  unfold hmInsert hmKeys
  rw [List.map_append, List.mem_append]
  simp only [List.map_cons, List.map_nil, List.mem_singleton]
  constructor
  · rintro (hf | hk)
    · rcases List.mem_map.mp hf with ⟨e, hef, hep⟩
      exact Or.inr (List.mem_map.mpr ⟨e, (List.mem_filter.mp hef).1, hep⟩)
    · exact Or.inl hk
  · rintro (hk | hm2)
    · exact Or.inr hk
    · by_cases hpk : p = k
      · exact Or.inr hpk
      · rcases List.mem_map.mp hm2 with ⟨e, hem, hep⟩
        refine Or.inl (List.mem_map.mpr ⟨e, List.mem_filter.mpr ⟨hem, ?_⟩, hep⟩)
        simp [hep, hpk]

/-- Key membership after folding `HashMap::insert` over a list of entries
(the inserted value may be computed from the entry). -/
theorem mem_hmKeys_foldl {α β : Type} (f : String × α → β) (l : List (String × α)) :
    ∀ (m : HMap β) (p : String),
      p ∈ hmKeys (l.foldl (fun acc e => hmInsert acc e.1 (f e)) m) ↔
        p ∈ hmKeys m ∨ p ∈ l.map (fun e => e.1) := by
  induction l with
  | nil => simp
  | cons a t ih =>
    intro m p
    rw [List.foldl_cons, ih (hmInsert m a.1 (f a)) p, mem_hmKeys_insert]
    simp only [List.map_cons, List.mem_cons]
    tauto

/-- `HashMap::insert` preserves distinctness of keys. -/
theorem nodup_hmKeys_insert {α : Type} (m : HMap α) (k : String) (v : α)
    (h : (hmKeys m).Nodup) : (hmKeys (hmInsert m k v)).Nodup := by
  unfold hmInsert hmKeys
  rw [List.map_append]
  apply List.Nodup.append
  · have hsub : ((m.filter (fun e => e.1 ≠ k)).map (fun e => e.1)).Sublist
        (m.map (fun e => e.1)) :=
      (List.filter_sublist m).map _
    exact h.sublist hsub
  · simp
  · intro x hx1 hx2
    simp only [List.map_cons, List.map_nil, List.mem_singleton] at hx2
    subst hx2
    rcases List.mem_map.mp hx1 with ⟨e, hef, hex⟩
    have hne := (List.mem_filter.mp hef).2
    simp [hex] at hne

/-- Folding `HashMap::insert` preserves distinctness of keys. -/
theorem nodup_hmKeys_foldl {α β : Type} (f : String × α → β) (l : List (String × α)) :
    ∀ (m : HMap β), (hmKeys m).Nodup →
      (hmKeys (l.foldl (fun acc e => hmInsert acc e.1 (f e)) m)).Nodup := by
  induction l with
  | nil => intro m h; exact h
  | cons a t ih =>
    intro m h
    rw [List.foldl_cons]
    exact ih (hmInsert m a.1 (f a)) (nodup_hmKeys_insert m a.1 (f a) h)

/-- First components of a truncating `zip` when the right list is long enough. -/
theorem map_fst_zip_of_le {α β : Type} :
    ∀ (l1 : List α) (l2 : List β), l1.length ≤ l2.length →
      (l1.zip l2).map (fun e => e.1) = l1 := by
  intro l1
  induction l1 with
  | nil => intro l2 _; simp
  | cons a t ih =>
    intro l2 h
    cases l2 with
    | nil => simp at h
    | cons b t2 =>
      simp only [List.zip_cons_cons, List.map_cons]
      rw [ih t2 (by simpa using h)]

/-- The adaptive extractor on the empty batch. -/
theorem adaptive_nil (now : Int) (jp : String → Option JVal) (E : Engine) :
    extract_dates_batch_adaptive now jp E [] = [] := by
  unfold extract_dates_batch_adaptive
  rw [dif_pos rfl]

/-- The adaptive extractor when the engine call (wrapped by
`try_extract_batch`) succeeds. -/
theorem adaptive_ok (now : Int) (jp : String → Option JVal) (E : Engine)
    (ps : List String) (br : HMap Outcome)
    (hok : try_extract_batch now jp E ps = .ok br) (hne : ps ≠ []) :
    extract_dates_batch_adaptive now jp E ps = hmExtend [] br := by
  conv_lhs => unfold extract_dates_batch_adaptive
  rw [dif_neg hne, hok]

/-- A failing `try_extract_batch` is exactly a failing engine call, reported
under its `anyhow` context message. -/
theorem try_extract_error (now : Int) (jp : String → Option JVal) (E : Engine)
    (ps : List String) (e : String)
    (h : try_extract_batch now jp E ps = .error e) :
    ∃ e2, E ps true = .error e2 ∧ e = "Exiftool batch execution failed" := by
  unfold try_extract_batch extract_batch_with_exiftool at h
  cases hE : E ps true with
  | error e2 =>
    rw [hE] at h
    dsimp only at h
    injection h with h2
    exact ⟨e2, rfl, h2.symm⟩
  | ok recs =>
    rw [hE] at h
    dsimp only at h
    cases h

/-- A successful `try_extract_batch` came from a successful engine call. -/
theorem try_extract_ok_engine (now : Int) (jp : String → Option JVal) (E : Engine)
    (ps : List String) (br : HMap Outcome)
    (h : try_extract_batch now jp E ps = .ok br) :
    ∃ recs, E ps true = .ok recs := by
  cases hE : E ps true with
  | error e2 =>
    unfold try_extract_batch extract_batch_with_exiftool at h
    rw [hE] at h
    dsimp only at h
    cases h
  | ok recs => exact ⟨recs, rfl⟩

/-- The adaptive extractor's terminal case: a failing engine call on a
single-path batch becomes one per-file failure for that path. -/
theorem adaptive_error_singleton (now : Int) (jp : String → Option JVal) (E : Engine)
    (p : String) (e : String) (hE : E [p] true = .error e) :
    extract_dates_batch_adaptive now jp E [p] =
      [(p, Except.error "Failed to extract metadata: Exiftool batch execution failed")] := by
  have ht : try_extract_batch now jp E [p] = .error "Exiftool batch execution failed" := by
    unfold try_extract_batch extract_batch_with_exiftool
    rw [hE]
  conv_lhs => unfold extract_dates_batch_adaptive
  rw [dif_neg (by simp : ¬([p] : List String) = []), ht]
  dsimp only
  rw [dif_pos (by simp : ([p] : List String).length = 1)]
  rfl

/-- The adaptive extractor's bisection case: a failing engine call on a batch
of more than one path recurses on the two contiguous halves and merges. -/
theorem adaptive_error_bisect (now : Int) (jp : String → Option JVal) (E : Engine)
    (ps : List String) (e : String) (hE : E ps true = .error e) (h2 : 1 < ps.length) :
    extract_dates_batch_adaptive now jp E ps =
      hmExtend (hmExtend []
          (extract_dates_batch_adaptive now jp E (ps.take (ps.length / 2))))
        (extract_dates_batch_adaptive now jp E (ps.drop (ps.length / 2))) := by
  have ht : try_extract_batch now jp E ps = .error "Exiftool batch execution failed" := by
    unfold try_extract_batch extract_batch_with_exiftool
    rw [hE]
  have hne : ps ≠ [] := by
    intro hnil
    rw [hnil] at h2
    simp at h2
  conv_lhs => unfold extract_dates_batch_adaptive
  rw [dif_neg hne, ht]
  dsimp only
  rw [dif_neg (by omega : ¬ps.length = 1)]

/-- Key set of a successful batch call: when the engine returned at least as
many records as paths, the result map binds exactly the input paths. -/
theorem keys_try_extract (now : Int) (jp : String → Option JVal) (E : Engine)
    (ps : List String) (br : HMap Outcome) (recs : List JVal)
    (h : try_extract_batch now jp E ps = .ok br)
    (hE : E ps true = .ok recs) (hlen : ps.length ≤ recs.length) :
    (∀ p, p ∈ hmKeys br ↔ p ∈ ps) ∧ (hmKeys br).Nodup := by
  unfold try_extract_batch extract_batch_with_exiftool at h
  rw [hE] at h
  dsimp only at h
  injection h with h
  subst h
  constructor
  · intro p
    rw [mem_hmKeys_foldl
      (fun (e : String × Except String Metadata) =>
        e.2.bind fun md => extract_dates_from_metadata now jp md)]
    have hck : (collect_records ps recs).map (fun e => e.1) = hmKeys (collect_records ps recs) :=
      rfl
    rw [hck]
    unfold collect_records
    rw [mem_hmKeys_foldl (fun (e : String × JVal) => metadata_of_value e.2)]
    rw [map_fst_zip_of_le ps recs hlen]
    simp [hmKeys]
  · apply nodup_hmKeys_foldl
    simp [hmKeys]

/-- Strong-induction core of claim C1: under an engine that always returns at
least one record per path on success, the adaptive extractor's result binds
exactly the input paths (each exactly once). -/
theorem adaptive_keys_aux (now : Int) (jp : String → Option JVal) (E : Engine)
    (hgood : ∀ qs recs, E qs true = .ok recs → qs.length ≤ recs.length) :
    ∀ n (ps : List String), ps.length ≤ n →
      (hmKeys (extract_dates_batch_adaptive now jp E ps)).Nodup
    ∧ ∀ p, p ∈ hmKeys (extract_dates_batch_adaptive now jp E ps) ↔ p ∈ ps := by
  intro n
  induction n with
  | zero =>
    intro ps hlen
    have hnil : ps = [] := by
      cases ps with
      | nil => rfl
      | cons a t => simp at hlen
    subst hnil
    rw [adaptive_nil]
    simp [hmKeys]
  | succ n ih =>
    intro ps hlen
    rcases eq_or_ne ps [] with rfl | hne
    · rw [adaptive_nil]
      simp [hmKeys]
    · cases ht : try_extract_batch now jp E ps with
      | ok br =>
        obtain ⟨recs, hE⟩ := try_extract_ok_engine now jp E ps br ht
        have hklen := hgood ps recs hE
        obtain ⟨hmem, hnod⟩ := keys_try_extract now jp E ps br recs ht hE hklen
        rw [adaptive_ok now jp E ps br ht hne]
        constructor
        · unfold hmExtend
          apply nodup_hmKeys_foldl
          simp [hmKeys]
        · intro p
          unfold hmExtend
          rw [mem_hmKeys_foldl (fun (e : String × Outcome) => e.2)]
          simp only [hmKeys, List.map_nil, List.not_mem_nil, false_or]
          exact hmem p
      | error e =>
        obtain ⟨e2, hE, _⟩ := try_extract_error now jp E ps e ht
        by_cases h1 : ps.length = 1
        · obtain ⟨p0, rfl⟩ := List.length_eq_one.mp h1
          rw [adaptive_error_singleton now jp E p0 e2 hE]
          simp [hmKeys, hmInsert]
        · have h2 : 1 < ps.length := by
            have : ps.length ≠ 0 := by simpa [List.length_eq_zero] using hne
            omega
          rw [adaptive_error_bisect now jp E ps e2 hE h2]
          have ihL := ih (ps.take (ps.length / 2))
            (by rw [List.length_take]; omega)
          have ihR := ih (ps.drop (ps.length / 2))
            (by rw [List.length_drop]; omega)
          constructor
          · unfold hmExtend
            apply nodup_hmKeys_foldl
            apply nodup_hmKeys_foldl
            simp [hmKeys]
          · intro p
            unfold hmExtend
            rw [mem_hmKeys_foldl (fun (e : String × Outcome) => e.2),
              mem_hmKeys_foldl (fun (e : String × Outcome) => e.2)]
            have hsplit : p ∈ ps ↔
                p ∈ ps.take (ps.length / 2) ∨ p ∈ ps.drop (ps.length / 2) := by
              conv_lhs => rw [← List.take_append_drop (ps.length / 2) ps]
              exact List.mem_append
            have hL := ihL.2 p
            have hR := ihR.2 p
            simp only [hmKeys, List.map_nil, List.not_mem_nil, false_or] at hL hR ⊢
            rw [hL, hR, hsplit]

/-! ## Claim C1 — one outcome per input path -/

/-- Claim C1 (amended): provided every successful engine call returns at least
as many per-path JSON records as it was given paths, the batch extractor's
result map has distinct keys and binds exactly the paths of the input list —
one outcome (resolved dates or typed failure) per input path, no extraneous
entries.  Without that proviso the property fails: see the counterexample. -/
theorem claim_c1 (now : Int) (jp : String → Option JVal) (E : Engine) (ps : List String)
    (hgood : ∀ qs recs, E qs true = .ok recs → qs.length ≤ recs.length) :
    (hmKeys (extract_dates_batch_adaptive now jp E ps)).Nodup
  ∧ ∀ p, p ∈ hmKeys (extract_dates_batch_adaptive now jp E ps) ↔ p ∈ ps :=
  adaptive_keys_aux now jp E hgood ps.length ps (le_refl _)

/-- Claim C1, counterexample to the original claim: an engine call that
"succeeds" with zero records for a one-path batch yields an empty result map —
the input path has no outcome at all, though the claim promises exactly one
outcome per path regardless of how many records a successful call returns. -/
theorem claim_c1_cex :
    hmLookup (extract_dates_batch_adaptive 0 (fun _ => none)
      (fun _ _ => Except.ok []) ["a"]) "a" = none
  ∧ hmKeys (extract_dates_batch_adaptive 0 (fun _ => none)
      (fun _ _ => Except.ok []) ["a"]) = []
  ∧ "a" ∈ ["a"] := by
  have hok : try_extract_batch 0 (fun _ => none) (fun _ _ => Except.ok []) ["a"] = .ok [] := rfl
  rw [adaptive_ok 0 (fun _ => none) (fun _ _ => Except.ok []) ["a"] [] hok (by simp)]
  exact ⟨rfl, rfl, by simp⟩

/-- Witness for claim C1: an engine returning exactly one (empty-object)
record per path. -/
theorem claim_c1_witness :
    (∀ qs recs,
      (fun (qs : List String) (_ : Bool) =>
        (Except.ok (qs.map (fun _ => JVal.obj [])) : Except String (List JVal))) qs true
          = .ok recs → qs.length ≤ recs.length)
  ∧ ((hmKeys (extract_dates_batch_adaptive 0 (fun _ => none)
      (fun (qs : List String) (_ : Bool) =>
        (Except.ok (qs.map (fun _ => JVal.obj [])) : Except String (List JVal)))
      ["a", "b"])).Nodup
    ∧ ∀ p, p ∈ hmKeys (extract_dates_batch_adaptive 0 (fun _ => none)
      (fun (qs : List String) (_ : Bool) =>
        (Except.ok (qs.map (fun _ => JVal.obj [])) : Except String (List JVal)))
      ["a", "b"]) ↔ p ∈ ["a", "b"]) := by
  have hgood : ∀ qs recs,
      (fun (qs : List String) (_ : Bool) =>
        (Except.ok (qs.map (fun _ => JVal.obj [])) : Except String (List JVal))) qs true
          = .ok recs → qs.length ≤ recs.length := by
    intro qs recs h
    dsimp only at h
    injection h with h2
    rw [← h2]
    simp
  exact ⟨hgood, claim_c1 0 (fun _ => none)
    (fun (qs : List String) (_ : Bool) =>
      (Except.ok (qs.map (fun _ => JVal.obj [])) : Except String (List JVal)))
    ["a", "b"] hgood⟩

/-! ## Claim C4 — failure bisection -/

/-- Claim C4: a failing engine call on a batch of more than one path bisects
into the two contiguous halves of sizes `N / 2` and `N - N / 2` and merges the
recursive results; a failing call on a single path becomes that path's
terminal per-file failure.  The recursion is total (the embedding is accepted
by well-founded recursion on the batch length), and the result type carries
only per-file outcomes, so no batch-level failure reaches the caller. -/
theorem claim_c4 (now : Int) (jp : String → Option JVal) (E : Engine)
    (ps : List String) (p : String) (e1 e2 : String) :
    (E ps true = .error e1 → 1 < ps.length →
      extract_dates_batch_adaptive now jp E ps
        = hmExtend (hmExtend []
            (extract_dates_batch_adaptive now jp E (ps.take (ps.length / 2))))
          (extract_dates_batch_adaptive now jp E (ps.drop (ps.length / 2)))
      ∧ (ps.take (ps.length / 2)).length = ps.length / 2
      ∧ (ps.drop (ps.length / 2)).length = ps.length - ps.length / 2)
  ∧ (E [p] true = .error e2 →
      extract_dates_batch_adaptive now jp E [p]
        = [(p, Except.error "Failed to extract metadata: Exiftool batch execution failed")]) := by
  constructor
  · intro hE h2
    refine ⟨adaptive_error_bisect now jp E ps e1 hE h2, ?_, ?_⟩
    · rw [List.length_take]
      omega
    · rw [List.length_drop]
  · intro hE
    exact adaptive_error_singleton now jp E p e2 hE

/-- Witness for claim C4: an engine that always fails, on a two-path batch and
on a singleton. -/
theorem claim_c4_witness :
    extract_dates_batch_adaptive 0 (fun _ => none) (fun _ _ => Except.error "boom") ["a", "b"]
      = hmExtend (hmExtend []
          (extract_dates_batch_adaptive 0 (fun _ => none)
            (fun _ _ => Except.error "boom") ["a"]))
          (extract_dates_batch_adaptive 0 (fun _ => none)
            (fun _ _ => Except.error "boom") ["b"])
  ∧ extract_dates_batch_adaptive 0 (fun _ => none) (fun _ _ => Except.error "boom") ["a"]
      = [("a", Except.error "Failed to extract metadata: Exiftool batch execution failed")] := by
  have h := claim_c4 0 (fun _ => none) (fun _ _ => Except.error "boom") ["a", "b"] "a"
    "boom" "boom"
  have hb := h.1 rfl (by decide)
  exact ⟨hb.1, h.2 rfl⟩
